import Mathlib

/-!
Verification of the OpenTiny static-site generator (`generate.py`).

The script reads a JSON link registry, a JSON config, an HTML template and an
error page, resets an output directory, renders one redirect page per registry
entry by literal placeholder substitution, and writes an XML sitemap.

The embedding below models Python text as `List Char`, JSON values as the
inductive `JSON`, the relevant filesystem inputs as an `Env`, and the
observable effects of a run (log events, created directories, written files,
and any uncaught exception) as a state `St`.  `runMain` is the shallow
embedding of `main` in `generate.py`; the helper functions mirror the source
functions of the same names.
-/

/-- JSON values as produced by `json.load`.  Numbers are modelled as integers
(no claim involves fractional numbers). -/
inductive JSON where
  | null
  | bool (b : Bool)
  | num (n : Int)
  | str (s : List Char)
  | arr (elems : List JSON)
  | obj (fields : List (List Char × JSON))

/-- Uncaught Python exception kinds relevant to `generate.py`. -/
inductive PyExc where
  | attributeError
  | typeError
  | keyError
  | notADirectoryError
  | isADirectoryError
deriving DecidableEq

/-- One `print` call site of `generate.py`, with the values interpolated into
its f-string.  (Messages are modelled as events rather than raw text.) -/
inductive LogEvent where
  | configMissing (config_file : List Char)
  | configInvalid (config_file : List Char)
  | folderRemoved (p : List Char)
  | folderCreated (p : List Char)
  | fileCopied (f p : List Char)
  | errorPageMissing (f : List Char)
  | registryContents (json_file : List Char) (data : JSON)
  | urlRequired (key : List Char)
  | folderExists (p : List Char)
  | fileCreated (p : List Char)
  | sitemapGenerated (p : List Char)
  | fileNotFoundError (path : List Char)
  | registryInvalid (json_file : List Char)

/-- Result of trying to read and JSON-parse a file. -/
inductive FileContent where
  | missing
  | invalid
  | parsed (j : JSON)

/-- The command-line arguments of `parse_arguments` (lines 9-25). -/
structure Args where
  json_file : List Char
  parent_folder : List Char
  template_file : List Char
  config_file : List Char
  error_page : List Char
  sitemap : List Char
  print : Bool

/-- The argparse defaults of `parse_arguments` (lines 11-24). -/
def defaultArgs : Args where
  json_file := "url.json".toList
  parent_folder := "_site".toList
  template_file := "template.html".toList
  config_file := "config.json".toList
  error_page := "404.html".toList
  sitemap := "sitemap.xml".toList
  print := true

/-- The inputs of one run: arguments plus the contents of the four input
files (the output directory is rebuilt from scratch, so only its prior
existence matters). -/
structure Env where
  args : Args
  configContent : FileContent
  registryContent : FileContent
  templateContent : Option (List Char)
  errorPageExists : Bool
  errorPageContent : List Char
  parentExisted : Bool

/-- Observable state of a run: log events, whether the old output directory
was removed, directories created by `os.makedirs`, files written (in order,
later writes overwrite earlier ones at the same path), and an uncaught
exception if one was raised. -/
structure St where
  logs : List LogEvent
  removedParent : Bool
  dirs : List (List Char)
  writes : List (List Char × List Char)
  exc : Option PyExc

/-- `os.path.join(a, b)` for POSIX paths (the only case `generate.py` uses:
two components). -/
def joinPath (a b : List Char) : List Char :=
  if b.head? = some '/' then b
  else if a = [] ∨ a.getLast? = some '/' then a ++ b
  else a ++ '/' :: b

/-- `os.path.basename` (the part after the last slash). -/
def basename (p : List Char) : List Char :=
  ((p.reverse.takeWhile (fun c => !(c == '/'))).reverse)

/-- Python `k in j` on a json-derived value: key test on dicts, substring
test on strings, element equality on lists, `TypeError` otherwise. -/
def pyContains (k : List Char) (j : JSON) : Except PyExc Bool :=
  match j with
  | .obj fields => .ok (fields.any (fun f => f.1 == k))
  | .str s => .ok (decide (k <:+: s))
  | .arr xs => .ok (xs.any (fun x => match x with | .str s => s == k | _ => false))
  | _ => .error .typeError

/-- Python `j[k]` with a string key: dict lookup (`KeyError` when absent);
`TypeError` on strings, lists and other values. -/
def getItem (j : JSON) (k : List Char) : Except PyExc JSON :=
  match j with
  | .obj fields =>
    match fields.lookup k with
    | some v => .ok v
    | none => .error .keyError
  | _ => .error .typeError

/-- Python `j.get(k, d)`: defined on dicts only; any other value has no
`get` attribute and raises `AttributeError` (this is what `main` line 73
does to the `''` returned by `load_config` on failure). -/
def dictGet (j : JSON) (k : List Char) (d : JSON) : Except PyExc JSON :=
  match j with
  | .obj fields => .ok ((fields.lookup k).getD d)
  | _ => .error .attributeError

/-- Python `str()` argument check of `str.replace`: the replacement values
must be strings, otherwise `TypeError`. -/
def asStr (j : JSON) : Except PyExc (List Char) :=
  match j with
  | .str s => .ok s
  | _ => .error .typeError

mutual
/-- Python `repr()` on json-derived values, used (via `str()`) when a
non-string value is interpolated into an f-string.  String quoting is
simplified to plain single quotes; no theorem evaluates this on containers. -/
def pyRepr : JSON → List Char
  | .null => "None".toList
  | .bool true => "True".toList
  | .bool false => "False".toList
  | .num n => (toString n).toList
  | .str s => Char.ofNat 39 :: s ++ [Char.ofNat 39]
  | .arr xs => '[' :: pyReprList xs ++ [']']
  | .obj fs => '\x7b' :: pyReprFields fs ++ ['\x7d']

def pyReprList : List JSON → List Char
  | [] => []
  | [x] => pyRepr x
  | x :: y :: xs => pyRepr x ++ ", ".toList ++ pyReprList (y :: xs)

def pyReprFields : List (List Char × JSON) → List Char
  | [] => []
  | [f] => (Char.ofNat 39 :: f.1 ++ [Char.ofNat 39]) ++ ": ".toList ++ pyRepr f.2
  | f :: g :: fs =>
    (Char.ofNat 39 :: f.1 ++ [Char.ofNat 39]) ++ ": ".toList ++ pyRepr f.2
      ++ ", ".toList ++ pyReprFields (g :: fs)
end

/-- Python `str()` on json-derived values (f-string interpolation). -/
def pyStr : JSON → List Char
  | .str s => s
  | j => pyRepr j

/-- Fuel-indexed version of Python `str.replace` on character lists: replaces
all non-overlapping occurrences of `p` left to right.  The fuel is always at
least `s.length + 1` at call sites, so the `0` case is never reached. -/
def replaceAllF : Nat → List Char → List Char → List Char → List Char
  | 0, _, _, s => s
  | _ + 1, p, v, [] => if p = [] then v else []
  | n + 1, p, v, c :: cs =>
    if p ≠ [] ∧ p <+: (c :: cs) then v ++ replaceAllF n p v ((c :: cs).drop p.length)
    else if p = [] then v ++ c :: replaceAllF n p v cs
    else c :: replaceAllF n p v cs

/-- Python `s.replace(p, v)` on character lists. -/
def replaceAll (p v s : List Char) : List Char :=
  replaceAllF (s.length + 1) p v s

/-- The five placeholder tokens of the template (lines 132-136). -/
def tokTitle : List Char := "\x7b\x7b title \x7d\x7d".toList

def tokHeading : List Char := "\x7b\x7b heading \x7d\x7d".toList

def tokUrl : List Char := "\x7b\x7b url \x7d\x7d".toList

def tokDescription : List Char := "\x7b\x7b description \x7d\x7d".toList

def tokImage : List Char := "\x7b\x7b image \x7d\x7d".toList

/-- The chained `.replace` calls of lines 132-136: sequential literal
replacement in the fixed order title, heading, url, description, image,
with the title value substituted for both the title and heading tokens. -/
def renderEntry (template title url description image : List Char) : List Char :=
  replaceAll tokImage image
    (replaceAll tokDescription description
      (replaceAll tokUrl url
        (replaceAll tokHeading title
          (replaceAll tokTitle title template))))

/-- `load_config` (lines 28-38): returns the parsed JSON, or — after logging —
the Python string `''` when the file is missing or not valid JSON. -/
def load_config (config_file : List Char) (content : FileContent) :
    List LogEvent × JSON :=
  match content with
  | .parsed j => ([], j)
  | .missing => ([.configMissing config_file], .str [])
  | .invalid => ([.configInvalid config_file], .str [])

/-- `os.path.exists` against the files and directories created so far in the
run (the output tree starts empty after the reset). -/
def stExists (st : St) (p : List Char) : Bool :=
  st.dirs.contains p || st.writes.any (fun w => w.1 == p)

/-- `open(path, 'w').write(content)`: fails with `IsADirectoryError` if a
directory sits at `path`, with `NotADirectoryError` if a plain file sits at
the parent directory `dirPath`; otherwise records the write. -/
def fsWrite (st : St) (dirPath path content : List Char) : St :=
  if st.dirs.contains path then { st with exc := some .isADirectoryError }
  else if st.writes.any (fun w => w.1 == dirPath) then
    { st with exc := some .notADirectoryError }
  else { st with writes := st.writes ++ [(path, content)] }

/-- XML declaration line of the sitemap (line 49). -/
def sitemapDecl : List Char := ("<?xml version=\"1.0\" encoding=\"UTF-8\"?>" ++ "\n").toList

/-- Opening `urlset` tag of the sitemap (line 50). -/
def urlsetOpen : List Char :=
  ("<urlset xmlns=\"http://www.sitemaps.org/schemas/sitemap/0.9\">" ++ "\n").toList

/-- One `<url>` block of the sitemap (line 52), for a given base URL text and
page key. -/
def urlBlock (base page : List Char) : List Char :=
  "  <url>\n\t\t<loc>".toList ++ base ++ '/' :: page ++ "/</loc>\n\t</url>\n".toList

/-- Closing tag of the sitemap (line 53). -/
def urlsetClose : List Char := "</urlset>".toList

/-- The `pages` list of `generate_sitemap` (lines 43-46): all registry keys. -/
def sitemapPages (data : List (List Char × JSON)) : List (List Char) :=
  data.map (fun kv => kv.1)

/-- The `xml_content` string of `generate_sitemap` (lines 49-53). -/
def sitemapXml (data : List (List Char × JSON)) (base_url : JSON) : List Char :=
  sitemapDecl ++ urlsetOpen
    ++ ((sitemapPages data).map (fun page => urlBlock (pyStr base_url) page)).flatten
    ++ urlsetClose

/-- The hard-coded sitemap path of line 42: `os.path.join(parent_folder,
'sitemap.xml')` — note it ignores the `--sitemap` argument. -/
def sitemapPathOf (parent_folder : List Char) : List Char :=
  joinPath parent_folder "sitemap.xml".toList

/-- `generate_sitemap` (lines 41-58), with the file write threaded through
the run state. -/
def generate_sitemap (data : List (List Char × JSON)) (parent_folder : List Char)
    (base_url : JSON) (st : St) : St :=
  fsWrite st parent_folder (sitemapPathOf parent_folder) (sitemapXml data base_url)

/-- The body of the per-entry loop (lines 106-140) for one `(key, value)`
pair: membership test on `'url'`, field extraction with defaults, the
root-sentinel/subdirectory path decision, placeholder substitution, and the
page write. -/
def processEntry (template parent : List Char) (pd : Bool) (st : St)
    (k : List Char) (v : JSON) : St :=
  match pyContains "url".toList v with
  | .error e => { st with exc := some e }
  | .ok false => { st with logs := st.logs ++ [.urlRequired k] }
  | .ok true =>
    match getItem v "url".toList with
    | .error e => { st with exc := some e }
    | .ok urlJ =>
      match dictGet v "title".toList (.str k), dictGet v "description".toList (.str k),
          dictGet v "image".toList (.str []) with
      | .ok titleJ, .ok descJ, .ok imgJ =>
        let branch : St × List Char × List Char :=
          if k = "index".toList then
            (st, parent, joinPath parent "index.html".toList)
          else
            let folder_path := joinPath parent k
            if stExists st folder_path then
              ({ st with logs := st.logs ++ (if pd then [.folderExists folder_path] else []) },
               folder_path, joinPath folder_path "index.html".toList)
            else
              ({ st with dirs := st.dirs ++ [folder_path],
                         logs := st.logs ++ (if pd then [.folderCreated folder_path] else []) },
               folder_path, joinPath folder_path "index.html".toList)
        match branch with
        | (st1, dirPath, index_file_path) =>
          match asStr titleJ, asStr urlJ, asStr descJ, asStr imgJ with
          | .ok title, .ok url, .ok description, .ok image =>
            let st2 := fsWrite st1 dirPath index_file_path
              (renderEntry template title url description image)
            if st2.exc.isSome then st2
            else if pd then { st2 with logs := st2.logs ++ [.fileCreated index_file_path] }
            else st2
          | _, _, _, _ => { st1 with exc := some .typeError }
      | _, _, _ => { st with exc := some .attributeError }

/-- The `for key, value in data.items()` loop (lines 106-140); an uncaught
exception aborts the remaining iterations. -/
def processEntries (template parent : List Char) (pd : Bool) :
    St → List (List Char × JSON) → St
  | st, [] => st
  | st, (k, v) :: rest =>
    let st' := processEntry template parent pd st k v
    if st'.exc.isSome then st' else processEntries template parent pd st' rest

/-- `main` (lines 61-149): config loading, output-directory reset, error-page
copy, registry parse, template read, the per-entry loop, and the sitemap. -/
def runMain (env : Env) : St :=
  let args := env.args
  let cl := load_config args.config_file env.configContent
  match dictGet cl.2 "base_url".toList (.str []) with
  | .error e => ⟨cl.1, false, [], [], some e⟩
  | .ok base_url =>
    let logs1 := cl.1 ++
      (if env.parentExisted && args.print then [.folderRemoved args.parent_folder] else [])
    let logs2 := logs1 ++ (if args.print then [.folderCreated args.parent_folder] else [])
    let st0 : St :=
      if env.errorPageExists then
        ⟨logs2 ++ (if args.print then [.fileCopied args.error_page args.parent_folder] else []),
         env.parentExisted, [args.parent_folder],
         [(joinPath args.parent_folder (basename args.error_page), env.errorPageContent)], none⟩
      else
        ⟨logs2 ++ [.errorPageMissing args.error_page],
         env.parentExisted, [args.parent_folder], [], none⟩
    match env.registryContent with
    | .missing => { st0 with logs := st0.logs ++ [.fileNotFoundError args.json_file] }
    | .invalid => { st0 with logs := st0.logs ++ [.registryInvalid args.json_file] }
    | .parsed data =>
      let st1 :=
        if args.print then
          { st0 with logs := st0.logs ++ [.registryContents args.json_file data] }
        else st0
      match env.templateContent with
      | none => { st1 with logs := st1.logs ++ [.fileNotFoundError args.template_file] }
      | some template_content =>
        match data with
        | .obj entries =>
          let st2 := processEntries template_content args.parent_folder args.print st1 entries
          if st2.exc.isSome then st2
          else
            let st3 := generate_sitemap entries args.parent_folder base_url st2
            if st3.exc.isSome then st3
            else if args.print then
              { st3 with logs := st3.logs ++ [.sitemapGenerated (sitemapPathOf args.parent_folder)] }
            else st3
        | _ => { st1 with exc := some .attributeError }

/-! ## Derived notions used to state the claims -/

/-- Whether the membership test `'url' not in value` of line 107 lets the
entry through (for dict values: key presence). -/
def hasUrlB (v : JSON) : Bool :=
  match v with
  | .obj fields => fields.any (fun f => f.1 == "url".toList)
  | _ => false

/-- Pairwise-distinct keys (a JSON object produced by `json.load` cannot
have duplicate keys). -/
def keysNodupB : List (List Char) → Bool
  | [] => true
  | k :: ks => !(ks.contains k) && keysNodupB ks

/-- The named field, when present, is a JSON string. -/
def strOptB (fields : List (List Char × JSON)) (name : List Char) : Bool :=
  match fields.lookup name with
  | none => true
  | some (.str _) => true
  | some _ => false

/-- A registry key that denotes a single fresh path segment of the output
tree: nonempty, no slash or NUL, not a relative-path alias, and not colliding
with the files `main` itself places at the top level (the copied error page
and `sitemap.xml`) nor with the root page file `index.html`. -/
def saneKeyB (errExists : Bool) (errBase k : List Char) : Bool :=
  !(k.isEmpty) && !(k.contains '/') && !(k.contains (Char.ofNat 0)) &&
  !(k == ".".toList) && !(k == "..".toList) &&
  !(k == "index.html".toList) && !(k == "sitemap.xml".toList) &&
  (!errExists || !(k == errBase))

/-- A registry value conforming to the spec data model: a JSON object whose
`url`, `title`, `description` and `image` fields, when present, are strings. -/
def saneValueB (v : JSON) : Bool :=
  match v with
  | .obj fields => strOptB fields "url".toList && strOptB fields "title".toList &&
      strOptB fields "description".toList && strOptB fields "image".toList
  | _ => false

/-- A link registry in the domain of the spec data model (§3): distinct sane
keys mapped to conforming entry objects. -/
def saneRegistryB (errExists : Bool) (errBase : List Char)
    (entries : List (List Char × JSON)) : Bool :=
  keysNodupB (entries.map (fun kv => kv.1)) &&
  entries.all (fun kv => saneKeyB errExists errBase kv.1 && saneValueB kv.2)

/-- `<output>/<key>` — the per-key directory path (line 122). -/
def folderPathOf (parent k : List Char) : List Char := parent ++ '/' :: k

/-- The path the rendered page of a key is written to: `<output>/index.html`
for the root sentinel, `<output>/<key>/index.html` otherwise (lines 117-129). -/
def pagePathOf (parent k : List Char) : List Char :=
  if k = "index".toList then parent ++ '/' :: "index.html".toList
  else parent ++ '/' :: (k ++ '/' :: "index.html".toList)

/-- The fields of a JSON object (empty for non-objects). -/
def fieldsOf (v : JSON) : List (List Char × JSON) :=
  match v with
  | .obj fields => fields
  | _ => []

/-- String content of an optional JSON field, with a default. -/
def strOr (o : Option JSON) (d : List Char) : List Char :=
  match o with
  | some (.str s) => s
  | _ => d

/-- `value.get('title', key)` as a string (line 113). -/
def titleOf (k : List Char) (v : JSON) : List Char :=
  strOr ((fieldsOf v).lookup "title".toList) k

/-- `value['url']` as a string (line 112). -/
def urlOf (v : JSON) : List Char :=
  strOr ((fieldsOf v).lookup "url".toList) []

/-- `value.get('description', key)` as a string (line 114). -/
def descOf (k : List Char) (v : JSON) : List Char :=
  strOr ((fieldsOf v).lookup "description".toList) k

/-- `value.get('image', '')` as a string (line 115). -/
def imgOf (v : JSON) : List Char :=
  strOr ((fieldsOf v).lookup "image".toList) []

/-- The page text rendered for one entry: the five sequential replacements
applied to the template with the entry's field values and defaults. -/
def renderOf (template k : List Char) (v : JSON) : List Char :=
  renderEntry template (titleOf k v) (urlOf v) (descOf k v) (imgOf v)

/-- Log events contributed by one loop iteration. -/
def entrySpecLogs (pd : Bool) (parent k : List Char) (v : JSON) : List LogEvent :=
  if hasUrlB v then
    (if k = "index".toList then []
     else if pd then [.folderCreated (folderPathOf parent k)] else []) ++
    (if pd then [.fileCreated (pagePathOf parent k)] else [])
  else [.urlRequired k]

/-- Directories created by one loop iteration. -/
def entrySpecDirs (parent k : List Char) (v : JSON) : List (List Char) :=
  if hasUrlB v && !(k == "index".toList) then [folderPathOf parent k] else []

/-- Files written by one loop iteration. -/
def entrySpecWrites (template parent k : List Char) (v : JSON) :
    List (List Char × List Char) :=
  if hasUrlB v then [(pagePathOf parent k, renderOf template k v)] else []

/-- The final content of the file at path `p` (the last write wins). -/
def fileAt (writes : List (List Char × List Char)) (p : List Char) :
    Option (List Char) :=
  (writes.reverse.find? (fun w => w.1 == p)).map (fun w => w.2)

/-- The error-page copy performed by lines 86-89, as a write list. -/
def copyWrites (env : Env) : List (List Char × List Char) :=
  if env.errorPageExists then
    [(joinPath env.args.parent_folder (basename env.args.error_page),
      env.errorPageContent)]
  else []

/-- `config.get('base_url', '')` on a successfully parsed config object. -/
def baseUrlJ (cfg : List (List Char × JSON)) : JSON :=
  (cfg.lookup "base_url".toList).getD (.str [])

/-- Freshness of the paths a list of keys will use, relative to the files and
directories already present in the run state. -/
def Fresh (parent : List Char) (st : St) (ks : List (List Char)) : Prop :=
  (∀ w ∈ st.writes, w.1 ≠ parent) ∧
  ∀ k ∈ ks, folderPathOf parent k ∉ st.dirs ∧
    (∀ w ∈ st.writes, w.1 ≠ folderPathOf parent k) ∧
    pagePathOf parent k ∉ st.dirs

/-- Well-formed inputs: both JSON files parse (the config to an object, the
registry to an object of entries), the template reads, the output directory
argument is a plain directory path, the error page has a usable base name
not colliding with generated files, and the registry is in the spec's data
model domain. -/
def goodEnv (env : Env) (cfg entries : List (List Char × JSON))
    (tpl : List Char) : Prop :=
  env.configContent = .parsed (.obj cfg) ∧
  env.registryContent = .parsed (.obj entries) ∧
  env.templateContent = some tpl ∧
  env.args.parent_folder ≠ [] ∧
  env.args.parent_folder.getLast? ≠ some '/' ∧
  (env.errorPageExists = true →
    basename env.args.error_page ≠ [] ∧
    basename env.args.error_page ≠ "index.html".toList ∧
    basename env.args.error_page ≠ "sitemap.xml".toList) ∧
  saneRegistryB env.errorPageExists (basename env.args.error_page) entries = true

/-- The log events of a complete successful run. -/
def expectedLogs (env : Env) (entries : List (List Char × JSON)) : List LogEvent :=
  (if env.parentExisted && env.args.print then
    [.folderRemoved env.args.parent_folder] else []) ++
  (if env.args.print then [.folderCreated env.args.parent_folder] else []) ++
  (if env.errorPageExists then
    (if env.args.print then [.fileCopied env.args.error_page env.args.parent_folder] else [])
   else [.errorPageMissing env.args.error_page]) ++
  (if env.args.print then [.registryContents env.args.json_file (.obj entries)] else []) ++
  (entries.map (fun kv => entrySpecLogs env.args.print env.args.parent_folder kv.1 kv.2)).flatten ++
  (if env.args.print then [.sitemapGenerated (sitemapPathOf env.args.parent_folder)] else [])

/-- The final state of a complete successful run on well-formed inputs. -/
def expectedSt (env : Env) (cfg entries : List (List Char × JSON))
    (tpl : List Char) : St where
  logs := expectedLogs env entries
  removedParent := env.parentExisted
  dirs := env.args.parent_folder ::
    (entries.map (fun kv => entrySpecDirs env.args.parent_folder kv.1 kv.2)).flatten
  writes := copyWrites env ++
    (entries.map (fun kv => entrySpecWrites tpl env.args.parent_folder kv.1 kv.2)).flatten ++
    [(sitemapPathOf env.args.parent_folder, sitemapXml entries (baseUrlJ cfg))]
  exc := none

/-! ## A recognizer for the emitted sitemap document -/

/-- The literal text preceding each loc in a `<url>` block. -/
def blockPre : List Char := "  <url>\n\t\t<loc>".toList

/-- The literal text following each loc in a `<url>` block. -/
def blockPost : List Char := "</loc>\n\t</url>\n".toList

/-- XML character-data text with no markup and no unescaped ampersand. -/
def xmlTextOkB (s : List Char) : Bool := s.all (fun c => !(c == '<') && !(c == '&'))

/-- Fuel-indexed parser for the body of the sitemap: a sequence of
`<url><loc>…</loc></url>` blocks followed by the closing tag.  Returns the
list of loc texts.  The fuel always exceeds the input length at call sites. -/
def parseLocsF : Nat → List Char → Option (List (List Char))
  | 0, _ => none
  | n + 1, s =>
    if s = urlsetClose then some []
    else if blockPre <+: s then
      let rest := s.drop blockPre.length
      let loc := rest.takeWhile (fun c => !(c == '<'))
      let rest2 := rest.drop loc.length
      if xmlTextOkB loc ∧ blockPost <+: rest2 then
        (parseLocsF n (rest2.drop blockPost.length)).map (fun ls => loc :: ls)
      else none
    else none

/-- Parser for the body of the sitemap document. -/
def parseLocs (s : List Char) : Option (List (List Char)) :=
  parseLocsF (s.length + 1) s

/-- Recognizer for the whole sitemap document: the exact XML declaration,
the `urlset` opening tag with the sitemap-protocol namespace, a sequence of
loc blocks, and the closing tag.  Accepts exactly the well-formed documents
of this shape and returns their loc texts in order. -/
def checkSitemap (s : List Char) : Option (List (List Char)) :=
  if (sitemapDecl ++ urlsetOpen) <+: s then
    parseLocs (s.drop (sitemapDecl ++ urlsetOpen).length)
  else none

/-- The loc text emitted for a key: `{base_url}/{key}/`. -/
def locOf (base k : List Char) : List Char := base ++ '/' :: k ++ ['/']

/-! ## Template decompositions (for the placeholder-elimination claim) -/

/-- A template segment: literal text or one of the five placeholder tokens. -/
inductive Seg where
  | lit (s : List Char)
  | tok (i : Fin 5)

/-- The tokens in replacement order. -/
def tokenOf (i : Fin 5) : List Char :=
  if i.val = 0 then tokTitle
  else if i.val = 1 then tokHeading
  else if i.val = 2 then tokUrl
  else if i.val = 3 then tokDescription
  else tokImage

/-- The text of one segment. -/
def segText : Seg → List Char
  | .lit s => s
  | .tok i => tokenOf i

/-- The template text of a decomposition. -/
def flattenSegs (segs : List Seg) : List Char := (segs.map segText).flatten

/-- Effect of replacing token `i` by `v` on one segment. -/
def stepSeg (i : Fin 5) (v : List Char) : Seg → Seg
  | .lit s => .lit s
  | .tok j => if j = i then .lit v else .tok j

/-- Effect of substituting all five tokens on one segment. -/
def substSeg (vals : Fin 5 → List Char) : Seg → Seg
  | .lit s => .lit s
  | .tok j => .lit (vals j)

/-- Text free of the opening-brace character. -/
def braceFreeB (s : List Char) : Bool := !(s.contains '\x7b')

/-- All literal segments are brace-free (so every template brace is part of
an exact token occurrence). -/
def segsOkB (segs : List Seg) : Bool :=
  segs.all (fun sg => match sg with | .lit s => braceFreeB s | .tok _ => true)

/-- The replacement value of each token position: title, heading ↦ title;
url; description; image. -/
def valsOf (title url description image : List Char) : Fin 5 → List Char :=
  fun j =>
    if j.val = 0 ∨ j.val = 1 then title
    else if j.val = 2 then url
    else if j.val = 3 then description
    else image

/-- The tail of a token after its two opening braces. -/
def tokTail (i : Fin 5) : List Char := (tokenOf i).drop 2

/-! ## Concrete environments used by the closed theorems -/

/-- A well-formed environment: config with a base URL, a registry with a root
entry, an ordinary entry and an entry lacking `url`, a template using two
placeholders, and an error page. -/
def envGood : Env where
  args := defaultArgs
  configContent := .parsed (.obj [("base_url".toList, .str "https://s.example".toList)])
  registryContent := .parsed (.obj
    [("index".toList, .obj [("url".toList, .str "https://example.com".toList)]),
     ("docs".toList, .obj [("url".toList, .str "https://example.com/docs".toList),
                           ("title".toList, .str "Docs".toList)]),
     ("nourl".toList, .obj [("title".toList, .str "No target".toList)])])
  templateContent := some "<a href=\"\x7b\x7b url \x7d\x7d\">\x7b\x7b title \x7d\x7d</a>".toList
  errorPageExists := true
  errorPageContent := "err".toList
  parentExisted := true

/-- The registry entries of `envGood`. -/
def entriesGood : List (List Char × JSON) :=
  [("index".toList, .obj [("url".toList, .str "https://example.com".toList)]),
   ("docs".toList, .obj [("url".toList, .str "https://example.com/docs".toList),
                         ("title".toList, .str "Docs".toList)]),
   ("nourl".toList, .obj [("title".toList, .str "No target".toList)])]

/-- The config fields of `envGood`. -/
def cfgGood : List (List Char × JSON) :=
  [("base_url".toList, .str "https://s.example".toList)]

/-- The template text of `envGood`. -/
def tplGood : List Char :=
  "<a href=\"\x7b\x7b url \x7d\x7d\">\x7b\x7b title \x7d\x7d</a>".toList

/-- Environment with a missing config file (and otherwise trivial inputs). -/
def envConfigMissing : Env where
  args := defaultArgs
  configContent := .missing
  registryContent := .parsed (.obj [])
  templateContent := some []
  errorPageExists := false
  errorPageContent := []
  parentExisted := false

/-- Environment with an unparsable config file. -/
def envConfigInvalid : Env :=
  { envConfigMissing with configContent := .invalid }

/-- Environment whose registry has a single entry lacking `url` (quiet run). -/
def envOneSkipped : Env where
  args := { defaultArgs with print := false }
  configContent := .parsed (.obj [])
  registryContent := .parsed (.obj [("a".toList, .obj [])])
  templateContent := some []
  errorPageExists := false
  errorPageContent := []
  parentExisted := false

/-- Environment whose registry key equals the copied error page's file name. -/
def envKeyCollision : Env where
  args := { defaultArgs with print := false }
  configContent := .parsed (.obj [])
  registryContent := .parsed (.obj
    [("404.html".toList, .obj [("url".toList, .str "u".toList)])])
  templateContent := some []
  errorPageExists := true
  errorPageContent := "err".toList
  parentExisted := false

/-- Environment whose template is exactly the image token and whose single
entry's `image` value is the literal text of the title token. -/
def envTokenSmuggle : Env where
  args := { defaultArgs with print := false }
  configContent := .parsed (.obj [])
  registryContent := .parsed (.obj
    [("a".toList, .obj [("url".toList, .str "u".toList),
                        ("image".toList, .str "\x7b\x7b title \x7d\x7d".toList)])])
  templateContent := some "\x7b\x7b image \x7d\x7d".toList
  errorPageExists := false
  errorPageContent := []
  parentExisted := false

/-- Environment run with `--sitemap custom.xml`. -/
def envSitemapFlag : Env where
  args := { defaultArgs with sitemap := "custom.xml".toList, print := false }
  configContent := .parsed (.obj [])
  registryContent := .parsed (.obj
    [("index".toList, .obj [("url".toList, .str "u".toList)])])
  templateContent := some "x".toList
  errorPageExists := false
  errorPageContent := []
  parentExisted := false

/-- Environment whose registry maps a key to a number. -/
def envNonObjectValue : Env where
  args := { defaultArgs with print := false }
  configContent := .parsed (.obj [])
  registryContent := .parsed (.obj [("a".toList, .num 5)])
  templateContent := some []
  errorPageExists := false
  errorPageContent := []
  parentExisted := false

/-- Environment with a well-formed config but a missing link registry. -/
def envRegistryMissing : Env where
  args := defaultArgs
  configContent := .parsed (.obj [("base_url".toList, .str "https://s.example".toList)])
  registryContent := .missing
  templateContent := some []
  errorPageExists := true
  errorPageContent := "err".toList
  parentExisted := true

/-- A template decomposition for the placeholder-elimination witness:
literal text around the url and title tokens. -/
def segsDemo : List Seg :=
  [.lit "<a href=\"".toList, .tok ⟨2, by omega⟩, .lit "\">".toList,
   .tok ⟨0, by omega⟩, .lit "</a>".toList]

/-! ## Properties of `replaceAll` -/

/-- The fuel of `replaceAllF` is irrelevant once it exceeds the input length. -/
theorem replaceAllF_congr (p v : List Char) :
    ∀ f1 f2 (s : List Char), s.length < f1 → s.length < f2 →
      replaceAllF f1 p v s = replaceAllF f2 p v s := by
  intro f1
  induction f1 with
  | zero => intro f2 s h1 _; exact absurd h1 (by omega)
  | succ n ih =>
    intro f2 s h1 h2
    cases f2 with
    | zero => exact absurd h2 (by omega)
    | succ m =>
      cases s with
      | nil => rfl
      | cons c cs =>
        simp only [List.length_cons] at h1 h2
        simp only [replaceAllF]
        by_cases h : p ≠ [] ∧ p <+: (c :: cs)
        · rw [if_pos h, if_pos h]
          have hp1 : 1 ≤ p.length := by
            cases p with
            | nil => exact absurd rfl h.1
            | cons a as => simp
          have hd : ((c :: cs).drop p.length).length ≤ cs.length := by
            simp only [List.length_drop, List.length_cons]
            omega
          rw [ih m ((c :: cs).drop p.length) (by omega) (by omega)]
        · rw [if_neg h, if_neg h]
          by_cases hp : p = []
          · rw [if_pos hp, if_pos hp, ih m cs (by omega) (by omega)]
          · rw [if_neg hp, if_neg hp, ih m cs (by omega) (by omega)]

/-- Replacement in the empty string (nonempty pattern). -/
theorem replaceAll_nil (p v : List Char) (hp : p ≠ []) : replaceAll p v [] = [] := by
  simp only [replaceAll, List.length_nil, replaceAllF, if_neg hp]

/-- A replacement step at a position where the pattern matches. -/
theorem replaceAll_hit (p v s : List Char) (hp : p ≠ []) (hpre : p <+: s) :
    replaceAll p v s = v ++ replaceAll p v (s.drop p.length) := by
  cases s with
  | nil => exact absurd (List.prefix_nil.mp hpre) hp
  | cons c cs =>
    have hp1 : 1 ≤ p.length := by
      cases p with
      | nil => exact absurd rfl hp
      | cons a as => simp
    simp only [replaceAll, List.length_cons]
    conv_lhs => rw [show cs.length + 1 + 1 = (cs.length + 1) + 1 from rfl]
    rw [show replaceAllF (cs.length + 1 + 1) p v (c :: cs) =
      (if p ≠ [] ∧ p <+: (c :: cs) then
        v ++ replaceAllF (cs.length + 1) p v ((c :: cs).drop p.length)
      else if p = [] then v ++ c :: replaceAllF (cs.length + 1) p v cs
      else c :: replaceAllF (cs.length + 1) p v cs) from rfl]
    rw [if_pos ⟨hp, hpre⟩]
    have hd : ((c :: cs).drop p.length).length ≤ cs.length := by
      simp only [List.length_drop, List.length_cons]
      omega
    rw [replaceAllF_congr p v (cs.length + 1) (((c :: cs).drop p.length).length + 1)
      ((c :: cs).drop p.length) (by omega) (by omega)]

/-- A replacement step at a position where the pattern does not match. -/
theorem replaceAll_miss (p v : List Char) (c : Char) (cs : List Char)
    (h : ¬ p <+: (c :: cs)) (hp : p ≠ []) :
    replaceAll p v (c :: cs) = c :: replaceAll p v cs := by
  simp only [replaceAll, List.length_cons]
  rw [show replaceAllF (cs.length + 1 + 1) p v (c :: cs) =
    (if p ≠ [] ∧ p <+: (c :: cs) then
      v ++ replaceAllF (cs.length + 1) p v ((c :: cs).drop p.length)
    else if p = [] then v ++ c :: replaceAllF (cs.length + 1) p v cs
    else c :: replaceAllF (cs.length + 1) p v cs) from rfl]
  rw [if_neg (fun hh => h hh.2), if_neg hp]

/-- Replacement walks over literal text that cannot start a brace-headed
pattern. -/
theorem replaceAll_skip_lit (p v : List Char) (pb : List Char)
    (hp : p = '\x7b' :: pb) :
    ∀ a s : List Char, (∀ c ∈ a, c ≠ '\x7b') →
      replaceAll p v (a ++ s) = a ++ replaceAll p v s := by
  intro a
  induction a with
  | nil => intro s _; simp
  | cons c a ih =>
    intro s h
    have hc : c ≠ '\x7b' := h c (List.mem_cons_self c a)
    have hnp : ¬ p <+: (c :: (a ++ s)) := by
      intro hpre
      rw [hp, List.cons_prefix_cons] at hpre
      exact hc hpre.1.symm
    rw [List.cons_append, replaceAll_miss p v c (a ++ s) hnp (by simp [hp]),
      ih s (fun d hd => h d (List.mem_cons_of_mem _ hd))]
    rfl

/-- A pattern differing from `t` at some position within both is not a
prefix of `t ++ r`. -/
theorem not_prefix_of_zip_diff :
    ∀ p t : List Char, ((p.zip t).any (fun ab => !(ab.1 == ab.2))) = true →
      ∀ r, ¬ p <+: (t ++ r) := by
  intro p
  induction p with
  | nil => intro t h r; simp at h
  | cons a p ih =>
    intro t h r hpre
    cases t with
    | nil => simp at h
    | cons b t =>
      simp only [List.zip_cons_cons, List.any_cons, Bool.or_eq_true] at h
      rw [List.cons_append, List.cons_prefix_cons] at hpre
      rcases h with h | h
      · have hab : a ≠ b := by simpa using h
        exact hab hpre.1
      · exact ih t h r hpre.2

/-- Replacement walks over a complete occurrence of a different token. -/
theorem replaceAll_skip_tok (p v t s : List Char) (pb : List Char)
    (hp : p = '\x7b' :: '\x7b' :: pb)
    (tb : List Char) (ht : t = '\x7b' :: '\x7b' :: tb) (htbne : tb ≠ [])
    (htb : tb.head? ≠ some '\x7b') (htc : ∀ c ∈ tb, c ≠ '\x7b')
    (hnp : ¬ p <+: (t ++ s)) :
    replaceAll p v (t ++ s) = t ++ replaceAll p v s := by
  subst ht
  have hpne : p ≠ [] := by simp [hp]
  have h2 : ¬ p <+: ('\x7b' :: (tb ++ s)) := by
    intro hpre
    rw [hp, List.cons_prefix_cons] at hpre
    rcases hpre with ⟨_, hpre⟩
    cases tb with
    | nil => exact htbne rfl
    | cons d tb' =>
      rw [List.cons_append, List.cons_prefix_cons] at hpre
      exact htc d (List.mem_cons_self d tb') hpre.1.symm
  rw [List.cons_append, List.cons_append,
    replaceAll_miss p v '\x7b' ('\x7b' :: (tb ++ s))
      (by rw [← List.cons_append, ← List.cons_append]; exact hnp) hpne,
    replaceAll_miss p v '\x7b' (tb ++ s) h2 hpne,
    replaceAll_skip_lit p v ('\x7b' :: pb) hp tb s htc]
  rfl

/-- `List.contains` agrees with membership (lawful `BEq`). -/
theorem contains_iff_mem {α : Type} [BEq α] [LawfulBEq α] (l : List α) (a : α) :
    l.contains a = true ↔ a ∈ l := List.elem_iff

/-- Brace-freedom unpacked to membership. -/
theorem braceFree_not_mem {s : List Char} (h : braceFreeB s = true) :
    ∀ c ∈ s, c ≠ '\x7b' := by
  intro c hc he
  subst he
  rw [braceFreeB, Bool.not_eq_true', ← Bool.not_eq_true] at h
  exact h ((contains_iff_mem s '\x7b').mpr hc)

/-- Each token is two opening braces followed by a brace-free nonempty tail. -/
theorem tokenOf_struct : ∀ i : Fin 5, tokenOf i = '\x7b' :: '\x7b' :: tokTail i ∧
    tokTail i ≠ [] ∧ (tokTail i).head? ≠ some '\x7b' ∧ ∀ c ∈ tokTail i, c ≠ '\x7b' := by
  decide

/-- Distinct tokens differ at some position within both. -/
theorem tokenOf_diff : ∀ i j : Fin 5, i ≠ j →
    (((tokenOf i).zip (tokenOf j)).any (fun ab => !(ab.1 == ab.2))) = true := by
  decide

/-- Unfolding of `flattenSegs` on a cons. -/
theorem flattenSegs_cons (sg : Seg) (segs : List Seg) :
    flattenSegs (sg :: segs) = segText sg ++ flattenSegs segs := by
  simp [flattenSegs]

/-- Replacing one token maps a decomposed template segment-wise. -/
theorem replaceAll_flattenSegs (i : Fin 5) (vi : List Char) :
    ∀ segs : List Seg, segsOkB segs = true →
      replaceAll (tokenOf i) vi (flattenSegs segs) =
        flattenSegs (segs.map (stepSeg i vi)) := by
  intro segs
  have hne : tokenOf i ≠ [] := by
    rw [(tokenOf_struct i).1]
    simp
  induction segs with
  | nil =>
    intro _
    simp only [flattenSegs, List.map_nil, List.flatten_nil]
    exact replaceAll_nil (tokenOf i) vi hne
  | cons sg segs ih =>
    intro hok
    rw [segsOkB, List.all_cons, Bool.and_eq_true] at hok
    have hok1 : segsOkB segs = true := hok.2
    cases sg with
    | lit s =>
      rw [flattenSegs_cons, segText,
        replaceAll_skip_lit (tokenOf i) vi ('\x7b' :: tokTail i) (tokenOf_struct i).1
          s _ (braceFree_not_mem hok.1),
        ih hok1, List.map_cons, flattenSegs_cons]
      rfl
    | tok j =>
      by_cases hij : j = i
      · subst hij
        rw [flattenSegs_cons, segText,
          replaceAll_hit _ _ _ hne (List.prefix_append _ _), List.drop_left,
          ih hok1, List.map_cons, flattenSegs_cons]
        simp [stepSeg, segText]
      · rw [flattenSegs_cons, segText,
          replaceAll_skip_tok (tokenOf i) vi (tokenOf j) (flattenSegs segs) (tokTail i)
            (tokenOf_struct i).1 (tokTail j) (tokenOf_struct j).1 (tokenOf_struct j).2.1
            (tokenOf_struct j).2.2.1 (tokenOf_struct j).2.2.2
            (not_prefix_of_zip_diff (tokenOf i) (tokenOf j)
              (tokenOf_diff i j (fun he => hij he.symm)) _),
          ih hok1, List.map_cons, flattenSegs_cons]
        simp [stepSeg, segText, hij]

/-- Token replacement with a brace-free value preserves decomposition
well-formedness. -/
theorem segsOkB_step (i : Fin 5) (vi : List Char) (hvi : braceFreeB vi = true) :
    ∀ segs, segsOkB segs = true → segsOkB (segs.map (stepSeg i vi)) = true := by
  intro segs
  induction segs with
  | nil => intro _; rfl
  | cons sg segs ih =>
    intro h
    rw [segsOkB, List.all_cons, Bool.and_eq_true] at h
    rw [List.map_cons, segsOkB, List.all_cons, Bool.and_eq_true]
    refine ⟨?_, ih h.2⟩
    cases sg with
    | lit s => exact h.1
    | tok j =>
      by_cases hij : j = i
      · simp [stepSeg, hij, hvi]
      · simp [stepSeg, hij]

/-- The five replacement steps act on one segment as the simultaneous
substitution. -/
theorem stepSeg_chain (title url description image : List Char) (sg : Seg) :
    stepSeg ⟨4, by omega⟩ image (stepSeg ⟨3, by omega⟩ description
      (stepSeg ⟨2, by omega⟩ url (stepSeg ⟨1, by omega⟩ title
        (stepSeg ⟨0, by omega⟩ title sg)))) =
    substSeg (valsOf title url description image) sg := by
  cases sg with
  | lit s => rfl
  | tok j => fin_cases j <;> rfl

/-- Rendering a decomposed template with brace-free values substitutes each
token occurrence exactly once. -/
theorem renderEntry_segs (segs : List Seg) (title url description image : List Char)
    (hok : segsOkB segs = true)
    (ht : braceFreeB title = true) (hu : braceFreeB url = true)
    (hd : braceFreeB description = true) (hi : braceFreeB image = true) :
    renderEntry (flattenSegs segs) title url description image =
      flattenSegs (segs.map (substSeg (valsOf title url description image))) := by
  have h0 := replaceAll_flattenSegs ⟨0, by omega⟩ title segs hok
  have k0 := segsOkB_step ⟨0, by omega⟩ title ht segs hok
  have h1 := replaceAll_flattenSegs ⟨1, by omega⟩ title _ k0
  have k1 := segsOkB_step ⟨1, by omega⟩ title ht _ k0
  have h2 := replaceAll_flattenSegs ⟨2, by omega⟩ url _ k1
  have k2 := segsOkB_step ⟨2, by omega⟩ url hu _ k1
  have h3 := replaceAll_flattenSegs ⟨3, by omega⟩ description _ k2
  have k3 := segsOkB_step ⟨3, by omega⟩ description hd _ k2
  have h4 := replaceAll_flattenSegs ⟨4, by omega⟩ image _ k3
  rw [renderEntry,
    show tokTitle = tokenOf ⟨0, by omega⟩ from rfl,
    show tokHeading = tokenOf ⟨1, by omega⟩ from rfl,
    show tokUrl = tokenOf ⟨2, by omega⟩ from rfl,
    show tokDescription = tokenOf ⟨3, by omega⟩ from rfl,
    show tokImage = tokenOf ⟨4, by omega⟩ from rfl,
    h0, h1, h2, h3, h4]
  simp only [List.map_map]
  refine congrArg flattenSegs (List.map_congr_left (fun sg _ => ?_))
  simpa [Function.comp] using stepSeg_chain title url description image sg

/-- A substituted decomposition with brace-free values contains no opening
brace. -/
theorem flattenSegs_subst_no_brace (vals : Fin 5 → List Char)
    (hv : ∀ j, braceFreeB (vals j) = true) :
    ∀ segs, segsOkB segs = true →
      '\x7b' ∉ flattenSegs (segs.map (substSeg vals)) := by
  intro segs
  induction segs with
  | nil => intro _; simp [flattenSegs]
  | cons sg segs ih =>
    intro h hm
    rw [segsOkB, List.all_cons, Bool.and_eq_true] at h
    rw [List.map_cons, flattenSegs_cons, List.mem_append] at hm
    rcases hm with hm | hm
    · cases sg with
      | lit s => exact braceFree_not_mem h.1 _ hm rfl
      | tok j => exact braceFree_not_mem (hv j) _ hm rfl
    · exact ih h.2 hm

/-- Every token contains an opening brace. -/
theorem tokenOf_has_brace : ∀ i : Fin 5, '\x7b' ∈ tokenOf i := by decide

/-! ## Path and registry bookkeeping -/

/-- A successful `any`-test on keys means the lookup succeeds. -/
theorem lookup_isSome_of_any {fields : List (List Char × JSON)} {n : List Char}
    (h : fields.any (fun f => f.1 == n) = true) : (fields.lookup n).isSome = true := by
  induction fields with
  | nil => simp at h
  | cons f fs ih =>
    rw [List.any_cons, Bool.or_eq_true] at h
    by_cases hnk : n = f.1
    · obtain ⟨k, v⟩ := f
      simp only at hnk
      simp [List.lookup, hnk]
    · obtain ⟨k, v⟩ := f
      simp only at hnk
      have h2 : fs.any (fun f => f.1 == n) = true := by
        rcases h with h | h
        · have hkn : k = n := by simpa using h
          exact absurd hkn.symm hnk
        · exact h
      have hbeq : (n == k) = false := by simpa using hnk
      simp only [List.lookup, hbeq]
      exact ih h2

/-- Lists of different lengths differ. -/
theorem ne_of_length_ne {l₁ l₂ : List Char} (h : l₁.length ≠ l₂.length) : l₁ ≠ l₂ :=
  fun he => h (he ▸ rfl)

/-- Cancellation for per-key paths under a common parent. -/
theorem append_cons_inj {parent a b : List Char}
    (h : parent ++ '/' :: a = parent ++ '/' :: b) : a = b := by
  have := List.append_cancel_left h
  simpa using this

/-- A per-key directory path is longer than the parent path. -/
theorem folderPathOf_ne_parent (parent k : List Char) : folderPathOf parent k ≠ parent := by
  intro he
  have := congrArg List.length he
  simp only [folderPathOf, List.length_append, List.length_cons] at this
  omega

/-- A page path is longer than the parent path. -/
theorem pagePathOf_ne_parent (parent k : List Char) : pagePathOf parent k ≠ parent := by
  intro he
  rw [pagePathOf] at he
  by_cases hk : k = "index".toList
  · rw [if_pos hk] at he
    have := congrArg List.length he
    simp only [List.length_append, List.length_cons] at this
    omega
  · rw [if_neg hk] at he
    have := congrArg List.length he
    simp only [List.length_append, List.length_cons] at this
    omega

/-- Distinct keys give distinct per-key directory paths. -/
theorem folderPathOf_inj {parent k k' : List Char} (h : k ≠ k') :
    folderPathOf parent k ≠ folderPathOf parent k' :=
  fun he => h (append_cons_inj he)

/-- A slash-free key's directory path is no entry's page path. -/
theorem folderPathOf_ne_pagePathOf {parent k : List Char} (k' : List Char)
    (hs : '/' ∉ k) (hih : k ≠ "index.html".toList) :
    folderPathOf parent k ≠ pagePathOf parent k' := by
  intro he
  rw [folderPathOf, pagePathOf] at he
  by_cases hk' : k' = "index".toList
  · rw [if_pos hk'] at he
    exact hih (append_cons_inj he)
  · rw [if_neg hk'] at he
    have hk := append_cons_inj he
    apply hs
    rw [hk]
    exact List.mem_append_right _ (List.mem_cons_self _ _)

/-- Page paths determine keys. -/
theorem pagePathOf_inj {parent k k' : List Char}
    (h : pagePathOf parent k = pagePathOf parent k') : k = k' := by
  rw [pagePathOf, pagePathOf] at h
  by_cases hk : k = "index".toList <;> by_cases hk' : k' = "index".toList
  · rw [hk, hk']
  · rw [if_pos hk, if_neg hk'] at h
    have := append_cons_inj h
    have hm : '/' ∈ "index.html".toList := by
      rw [this]
      exact List.mem_append_right _ (List.mem_cons_self _ _)
    exact absurd hm (by decide)
  · rw [if_neg hk, if_pos hk'] at h
    have := append_cons_inj h
    have hm : '/' ∈ "index.html".toList := by
      rw [← this]
      exact List.mem_append_right _ (List.mem_cons_self _ _)
    exact absurd hm (by decide)
  · rw [if_neg hk, if_neg hk'] at h
    exact List.append_cancel_right (append_cons_inj h)

/-- No page path is the sitemap path. -/
theorem pagePathOf_ne_sitemap (parent k : List Char) :
    pagePathOf parent k ≠ parent ++ '/' :: "sitemap.xml".toList := by
  intro he
  rw [pagePathOf] at he
  by_cases hk : k = "index".toList
  · rw [if_pos hk] at he
    exact absurd (append_cons_inj he) (by decide)
  · rw [if_neg hk] at he
    have := append_cons_inj he
    have hm : '/' ∈ "sitemap.xml".toList := by
      rw [← this]
      exact List.mem_append_right _ (List.mem_cons_self _ _)
    exact absurd hm (by decide)

/-- The base name contains no slash. -/
theorem slash_not_mem_basename (p : List Char) : '/' ∉ basename p := by
  intro hm
  rw [basename, List.mem_reverse] at hm
  have := List.mem_takeWhile_imp hm
  simp at this

/-- Unpacking of `saneKeyB`. -/
theorem saneKey_props {errE : Bool} {errB k : List Char} (h : saneKeyB errE errB k = true) :
    k ≠ [] ∧ '/' ∉ k ∧ k ≠ "index.html".toList ∧ k ≠ "sitemap.xml".toList ∧
    (errE = true → k ≠ errB) := by
  rw [saneKeyB] at h
  simp only [Bool.and_eq_true, Bool.not_eq_true', Bool.or_eq_true] at h
  obtain ⟨⟨⟨⟨⟨⟨⟨h1, h2⟩, h3⟩, h4⟩, h5⟩, h6⟩, h7⟩, h8⟩ := h
  refine ⟨?_, ?_, ?_, ?_, ?_⟩
  · intro he
    rw [he] at h1
    simp at h1
  · intro hm
    rw [(contains_iff_mem k '/').mpr hm] at h2
    cases h2
  · intro he
    rw [he] at h6
    simp at h6
  · intro he
    rw [he] at h7
    simp at h7
  · intro hE he
    rw [hE] at h8
    rcases h8 with h8 | h8
    · cases h8
    · rw [he] at h8
      simp at h8

/-- Head of a slash-free nonempty list is not a slash. -/
theorem head_ne_slash {k : List Char} (hne : k ≠ []) (hs : '/' ∉ k) :
    k.head? ≠ some '/' := by
  cases k with
  | nil => exact absurd rfl hne
  | cons c cs =>
    intro he
    simp only [List.head?, Option.some.injEq] at he
    exact hs (he ▸ List.mem_cons_self c cs)

/-- The last element of a list is a member. -/
theorem mem_of_getLast?_eq_some : ∀ {l : List Char} {c : Char},
    l.getLast? = some c → c ∈ l := by
  intro l
  induction l with
  | nil => intro c h; simp at h
  | cons a l ih =>
    intro c h
    cases l with
    | nil =>
      simp only [List.getLast?_singleton, Option.some.injEq] at h
      exact h ▸ List.mem_cons_self a []
    | cons b l' =>
      rw [List.getLast?_cons_cons] at h
      exact List.mem_cons_of_mem _ (ih h)

/-- Last element of a slash-free nonempty list is not a slash. -/
theorem getLast_ne_slash {k : List Char} (hne : k ≠ []) (hs : '/' ∉ k) :
    k.getLast? ≠ some '/' :=
  fun he => hs (mem_of_getLast?_eq_some he)

/-- `os.path.join` on a clean directory path and a relative name. -/
theorem joinPath_eq (a b : List Char) (ha : a ≠ []) (ha2 : a.getLast? ≠ some '/')
    (hb : b.head? ≠ some '/') : joinPath a b = a ++ '/' :: b := by
  rw [joinPath, if_neg hb, if_neg ?_]
  rintro (h | h)
  · exact ha h
  · exact ha2 h

/-- The last element of a per-key path is the key's last element. -/
theorem getLast?_append_cons {parent k : List Char} (hk : k ≠ []) :
    (parent ++ '/' :: k).getLast? = k.getLast? := by
  rw [List.getLast?_append]
  cases k with
  | nil => exact absurd rfl hk
  | cons c cs =>
    rw [List.getLast?_cons_cons]
    have : ((c :: cs).getLast?).isSome = true := by
      rw [List.getLast?_isSome]
      simp
    obtain ⟨x, hx⟩ := Option.isSome_iff_exists.mp this
    rw [hx]
    rfl

/-- Non-membership as a `contains` computation. -/
theorem contains_eq_false {α : Type} [BEq α] [LawfulBEq α] {l : List α} {a : α}
    (h : a ∉ l) : l.contains a = false := by
  rw [Bool.eq_false_iff]
  intro hc
  exact h ((contains_iff_mem l a).mp hc)

/-- No write at a path, as an `any` computation. -/
theorem any_fst_eq_false {ws : List (List Char × List Char)} {p : List Char}
    (h : ∀ w ∈ ws, w.1 ≠ p) : (ws.any (fun w => w.1 == p)) = false := by
  rw [Bool.eq_false_iff]
  intro hany
  rw [List.any_eq_true] at hany
  obtain ⟨w, hw, hbe⟩ := hany
  exact h w hw (by simpa using hbe)

/-- `os.path.exists` is false at a fresh path. -/
theorem stExists_eq_false {st : St} {p : List Char}
    (h1 : p ∉ st.dirs) (h2 : ∀ w ∈ st.writes, w.1 ≠ p) : stExists st p = false := by
  rw [stExists, contains_eq_false h1, any_fst_eq_false h2]
  rfl

/-- A write to a fresh path under an intact directory succeeds. -/
theorem fsWrite_ok {st : St} {dirPath path content : List Char}
    (h1 : path ∉ st.dirs) (h2 : ∀ w ∈ st.writes, w.1 ≠ dirPath) :
    fsWrite st dirPath path content =
      { st with writes := st.writes ++ [(path, content)] } := by
  rw [fsWrite, contains_eq_false h1, any_fst_eq_false h2]
  simp

/-- A string-or-absent field looked up with a string default passes the
`str.replace` argument check and yields the defaulted string. -/
theorem asStr_getD {fields : List (List Char × JSON)} {n : List Char}
    (d : List Char) (h : strOptB fields n = true) :
    asStr ((fields.lookup n).getD (.str d)) = .ok (strOr (fields.lookup n) d) := by
  cases hl : fields.lookup n with
  | none => simp [asStr, strOr]
  | some j =>
    rw [strOptB, hl] at h
    cases j with
    | str s => simp [asStr, strOr]
    | null => simp at h
    | bool b => simp at h
    | num m => simp at h
    | arr xs => simp at h
    | obj fs => simp at h

/-- A present string-or-absent field is a string. -/
theorem strOpt_lookup_str {fields : List (List Char × JSON)} {n : List Char} {j : JSON}
    (h : strOptB fields n = true) (hs : fields.lookup n = some j) :
    ∃ s, j = JSON.str s := by
  rw [strOptB, hs] at h
  cases j with
  | str s => exact ⟨s, rfl⟩
  | null => simp at h
  | bool b => simp at h
  | num m => simp at h
  | arr xs => simp at h
  | obj fs => simp at h

/-- A per-key page path properly extends the per-key directory path. -/
theorem folder_append_ne_self (folder rest : List Char) :
    folder ++ '/' :: rest ≠ folder := by
  intro he
  have := congrArg List.length he
  simp only [List.length_append, List.length_cons] at this
  omega

/-- One loop iteration on a sane entry over fresh paths: it contributes
exactly its specified logs, directories and writes, and raises nothing. -/
theorem processEntry_sane (tpl parent : List Char) (pd : Bool) (errE : Bool)
    (errB : List Char) (hpar : parent ≠ []) (hpar2 : parent.getLast? ≠ some '/')
    (st : St) (k : List Char) (v : JSON)
    (hk : saneKeyB errE errB k = true) (hv : saneValueB v = true)
    (hexc : st.exc = none)
    (hfd : folderPathOf parent k ∉ st.dirs)
    (hfw : ∀ w ∈ st.writes, w.1 ≠ folderPathOf parent k)
    (hgd : pagePathOf parent k ∉ st.dirs)
    (hgw : ∀ w ∈ st.writes, w.1 ≠ parent) :
    processEntry tpl parent pd st k v =
      ⟨st.logs ++ entrySpecLogs pd parent k v, st.removedParent,
       st.dirs ++ entrySpecDirs parent k v,
       st.writes ++ entrySpecWrites tpl parent k v, none⟩ := by
  obtain ⟨saneK1, saneK2, saneK3, saneK4, saneK5⟩ := saneKey_props hk
  cases v with
  | null => simp [saneValueB] at hv
  | bool b => simp [saneValueB] at hv
  | num n => simp [saneValueB] at hv
  | str s => simp [saneValueB] at hv
  | arr xs => simp [saneValueB] at hv
  | obj fields =>
    rw [saneValueB] at hv
    simp only [Bool.and_eq_true] at hv
    obtain ⟨⟨⟨hvu, hvt⟩, hvd⟩, hvi⟩ := hv
    obtain ⟨slogs, srem, sdirs, swrites, sexc⟩ := st
    simp only at hexc hfd hfw hgd hgw
    subst hexc
    by_cases hurl : fields.any (fun f => f.1 == "url".toList) = true
    · obtain ⟨uj, hul⟩ := Option.isSome_iff_exists.mp (lookup_isSome_of_any hurl)
      obtain ⟨us, rfl⟩ := strOpt_lookup_str hvu hul
      have hul' : List.lookup ['u', 'r', 'l'] fields = some (JSON.str us) := hul
      have hasu : asStr ((fields.lookup "url".toList).getD (.str [])) =
          .ok (strOr (fields.lookup "url".toList) []) := asStr_getD [] hvu
      have hast := asStr_getD k hvt
      have hasd := asStr_getD k hvd
      have hasi := asStr_getD [] hvi
      by_cases hki : k = "index".toList
      · -- root sentinel: page written at <output>/index.html, no directory
        have hjoin : joinPath parent "index.html".toList =
            parent ++ '/' :: "index.html".toList :=
          joinPath_eq parent _ hpar hpar2 (by decide)
        have hpage : pagePathOf parent k = parent ++ '/' :: "index.html".toList := by
          rw [pagePathOf, if_pos hki]
        simp only [processEntry, pyContains, hurl, getItem, hul, dictGet, if_pos hki,
          hast, hasd, hasi]
        rw [show asStr (JSON.str us) = .ok us from rfl]
        simp only [hjoin]
        rw [fsWrite_ok (by rw [← hpage] at hjoin ⊢; exact hgd) hgw]
        simp only [entrySpecLogs, entrySpecDirs, entrySpecWrites, hasUrlB, hurl,
          if_pos hki, hpage]
        cases pd <;>
          simp [renderOf, titleOf, urlOf, descOf, imgOf, fieldsOf, hul', strOr, hki]
      · -- ordinary key: directory created, page written inside it
        have hkh : k.head? ≠ some '/' := head_ne_slash saneK1 saneK2
        have hjoin : joinPath parent k = folderPathOf parent k := by
          rw [folderPathOf]
          exact joinPath_eq parent k hpar hpar2 hkh
        have hfne : folderPathOf parent k ≠ [] := by
          rw [folderPathOf]
          simp
        have hflast : (folderPathOf parent k).getLast? ≠ some '/' := by
          rw [folderPathOf, getLast?_append_cons saneK1]
          exact getLast_ne_slash saneK1 saneK2
        have hjoin2 : joinPath (folderPathOf parent k) "index.html".toList =
            folderPathOf parent k ++ '/' :: "index.html".toList :=
          joinPath_eq _ _ hfne hflast (by decide)
        have hpage : pagePathOf parent k =
            folderPathOf parent k ++ '/' :: "index.html".toList := by
          rw [pagePathOf, if_neg hki, folderPathOf]
          simp
        simp only [processEntry, pyContains, hurl, getItem, hul, dictGet, if_neg hki,
          hast, hasd, hasi, hjoin]
        rw [show asStr (JSON.str us) = .ok us from rfl]
        rw [@stExists_eq_false ⟨slogs, srem, sdirs, swrites, none⟩ _ hfd hfw,
          if_neg Bool.false_ne_true]
        simp only [hjoin2]
        have h1 : folderPathOf parent k ++ '/' :: "index.html".toList ∉
            sdirs ++ [folderPathOf parent k] := by
          rw [← hpage, List.mem_append, List.mem_singleton]
          rintro (hm | hm)
          · exact hgd hm
          · rw [hpage] at hm
            exact folder_append_ne_self _ _ hm
        rw [@fsWrite_ok ⟨slogs ++ (if pd then
            [LogEvent.folderCreated (folderPathOf parent k)] else []), srem,
            sdirs ++ [folderPathOf parent k], swrites, none⟩ _ _ _ h1 hfw]
        simp only [entrySpecLogs, entrySpecDirs, entrySpecWrites, hasUrlB, hurl,
          if_neg hki, hpage]
        have hki2 : ¬ k = ['i', 'n', 'd', 'e', 'x'] := hki
        cases pd <;>
          simp [renderOf, titleOf, urlOf, descOf, imgOf, fieldsOf, hul', strOr, hki2]
    · have hurl' : fields.any (fun f => f.1 == "url".toList) = false := by
        rw [Bool.eq_false_iff]
        exact hurl
      simp only [processEntry, pyContains, hurl']
      simp only [entrySpecLogs, entrySpecDirs, entrySpecWrites, hasUrlB, hurl',
        Bool.false_and, if_neg Bool.false_ne_true, List.append_nil]

/-- Every write contributed by one iteration is at that entry's page path. -/
theorem entrySpecWrites_fst {tpl parent k : List Char} {v : JSON} :
    ∀ w ∈ entrySpecWrites tpl parent k v, w.1 = pagePathOf parent k := by
  intro w hw
  rw [entrySpecWrites] at hw
  by_cases h : hasUrlB v = true
  · rw [if_pos h, List.mem_singleton] at hw
    rw [hw]
  · rw [if_neg h] at hw
    cases hw

/-- Every directory contributed by one iteration is that entry's folder. -/
theorem entrySpecDirs_mem {parent k : List Char} {v : JSON} :
    ∀ d ∈ entrySpecDirs parent k v, d = folderPathOf parent k := by
  intro d hd
  rw [entrySpecDirs] at hd
  by_cases h : (hasUrlB v && !(k == "index".toList)) = true
  · rw [if_pos h, List.mem_singleton] at hd
    exact hd
  · rw [if_neg h] at hd
    cases hd

/-- The loop over a sane registry with fresh paths contributes exactly the
per-entry logs, directories and writes, in registry order, and raises
nothing. -/
theorem processEntries_sane (tpl parent : List Char) (pd : Bool) (errE : Bool)
    (errB : List Char) (hpar : parent ≠ []) (hpar2 : parent.getLast? ≠ some '/') :
    ∀ (entries : List (List Char × JSON)) (st : St),
      (entries.all (fun kv => saneKeyB errE errB kv.1 && saneValueB kv.2) = true) →
      keysNodupB (entries.map (fun kv => kv.1)) = true →
      Fresh parent st (entries.map (fun kv => kv.1)) →
      st.exc = none →
      processEntries tpl parent pd st entries =
        ⟨st.logs ++ (entries.map (fun kv => entrySpecLogs pd parent kv.1 kv.2)).flatten,
         st.removedParent,
         st.dirs ++ (entries.map (fun kv => entrySpecDirs parent kv.1 kv.2)).flatten,
         st.writes ++ (entries.map (fun kv => entrySpecWrites tpl parent kv.1 kv.2)).flatten,
         none⟩ := by
  intro entries
  induction entries with
  | nil =>
    intro st _ _ _ hexc
    obtain ⟨slogs, srem, sdirs, swrites, sexc⟩ := st
    simp only at hexc
    subst hexc
    simp [processEntries]
  | cons kv rest ih =>
    intro st hall hnodup hfr hexc
    obtain ⟨k, v⟩ := kv
    rw [List.all_cons, Bool.and_eq_true] at hall
    obtain ⟨hkv, hall⟩ := hall
    rw [Bool.and_eq_true] at hkv
    obtain ⟨hk, hv⟩ := hkv
    rw [List.map_cons, keysNodupB, Bool.and_eq_true] at hnodup
    obtain ⟨hnk, hnodup⟩ := hnodup
    have hkmem : k ∉ rest.map (fun kv => kv.1) := by
      intro hm
      rw [Bool.not_eq_true'] at hnk
      rw [(contains_iff_mem _ k).mpr hm] at hnk
      cases hnk
    obtain ⟨hfrP, hfrK⟩ := hfr
    rw [List.map_cons] at hfrK
    obtain ⟨hfd, hfw, hgd⟩ := hfrK k (List.mem_cons_self _ _)
    have hstep := processEntry_sane tpl parent pd errE errB hpar hpar2 st k v hk hv
      hexc hfd hfw hgd hfrP
    have hsane := saneKey_props hk
    have hfr2 : Fresh parent
        ⟨st.logs ++ entrySpecLogs pd parent k v, st.removedParent,
         st.dirs ++ entrySpecDirs parent k v,
         st.writes ++ entrySpecWrites tpl parent k v, none⟩
        (rest.map (fun kv => kv.1)) := by
      constructor
      · intro w hw
        rw [List.mem_append] at hw
        rcases hw with hw | hw
        · exact hfrP w hw
        · rw [entrySpecWrites_fst w hw]
          exact pagePathOf_ne_parent parent k
      · intro k' hk'
        have hk'sane : saneKeyB errE errB k' = true ∧ '/' ∉ k' ∧
            k' ≠ "index.html".toList := by
          rw [List.mem_map] at hk'
          obtain ⟨kv', hkv', hke⟩ := hk'
          rw [List.all_eq_true] at hall
          have := hall kv' hkv'
          rw [Bool.and_eq_true] at this
          obtain ⟨hs, _⟩ := this
          obtain ⟨_, h2, h3, _, _⟩ := saneKey_props (hke ▸ hs)
          exact ⟨hke ▸ hs, h2, h3⟩
        have hkk' : k' ≠ k := by
          intro he
          rw [List.mem_map] at hk'
          obtain ⟨kv', hkv', hke⟩ := hk'
          exact hkmem (List.mem_map.mpr ⟨kv', hkv', he ▸ hke⟩)
        obtain ⟨hfd', hfw', hgd'⟩ := hfrK k' (List.mem_cons_of_mem _ hk')
        refine ⟨?_, ?_, ?_⟩
        · intro hm
          rw [List.mem_append] at hm
          rcases hm with hm | hm
          · exact hfd' hm
          · exact folderPathOf_inj hkk' (entrySpecDirs_mem _ hm).symm.symm
        · intro w hw
          rw [List.mem_append] at hw
          rcases hw with hw | hw
          · exact hfw' w hw
          · rw [entrySpecWrites_fst w hw]
            exact (@folderPathOf_ne_pagePathOf parent k' k hk'sane.2.1 hk'sane.2.2).symm
        · intro hm
          rw [List.mem_append] at hm
          rcases hm with hm | hm
          · exact hgd' hm
          · have := entrySpecDirs_mem _ hm
            obtain ⟨_, h2, h3, _, _⟩ := saneKey_props hk
            exact @folderPathOf_ne_pagePathOf parent k k' h2 h3 this.symm
    simp only [processEntries, hstep]
    rw [if_neg (by simp)]
    rw [ih _ hall hnodup hfr2 rfl]
    simp [List.append_assoc]

/-- The sitemap path under a clean parent directory path. -/
theorem sitemapPathOf_eq {parent : List Char} (hpar : parent ≠ [])
    (hpar2 : parent.getLast? ≠ some '/') :
    sitemapPathOf parent = parent ++ '/' :: "sitemap.xml".toList := by
  rw [sitemapPathOf]
  exact joinPath_eq parent _ hpar hpar2 (by decide)

/-- Freshness of a sane registry's paths over the post-copy initial state. -/
theorem fresh_initial (parent errB : List Char) (errE : Bool)
    (entries : List (List Char × JSON))
    (logs : List LogEvent) (rem : Bool) (ws : List (List Char × List Char))
    (hws : ∀ w ∈ ws, w.1 = parent ++ '/' :: errB)
    (hkeys : ∀ k' ∈ entries.map (fun kv => kv.1), saneKeyB errE errB k' = true)
    (hcol : errE = false → ws = []) :
    Fresh parent ⟨logs, rem, [parent], ws, none⟩ (entries.map (fun kv => kv.1)) := by
  constructor
  · intro w hw
    rw [hws w hw]
    intro he
    have := congrArg List.length he
    simp only [List.length_append, List.length_cons] at this
    omega
  · intro k hk
    obtain ⟨h1, h2, h3, h4, h5⟩ := saneKey_props (hkeys k hk)
    refine ⟨?_, ?_, ?_⟩
    · rw [List.mem_singleton]
      exact folderPathOf_ne_parent parent k
    · intro w hw
      rw [hws w hw]
      intro he
      have hbe : errB = k := append_cons_inj he
      cases hE : errE with
      | false =>
        rw [hcol hE] at hw
        cases hw
      | true => exact h5 hE hbe.symm
    · rw [List.mem_singleton]
      exact pagePathOf_ne_parent parent k

/-- No page, copy or loop write sits at the parent path itself. -/
theorem writes_ne_parent {tpl parent : List Char}
    {entries : List (List Char × JSON)} {ws : List (List Char × List Char)}
    (hws : ∀ w ∈ ws, w.1 ≠ parent) :
    ∀ w ∈ ws ++ (entries.map (fun kv => entrySpecWrites tpl parent kv.1 kv.2)).flatten,
      w.1 ≠ parent := by
  intro w hw
  rw [List.mem_append] at hw
  rcases hw with hw | hw
  · exact hws w hw
  · rw [List.mem_flatten] at hw
    obtain ⟨l, hl, hwl⟩ := hw
    rw [List.mem_map] at hl
    obtain ⟨kv, _, hkv⟩ := hl
    rw [← hkv] at hwl
    rw [entrySpecWrites_fst w hwl]
    exact pagePathOf_ne_parent parent kv.1

/-- The sitemap path collides with no directory created by a sane run. -/
theorem sitemap_not_in_dirs {parent errB : List Char} {errE : Bool}
    {entries : List (List Char × JSON)}
    (hkeys : ∀ k' ∈ entries.map (fun kv => kv.1), saneKeyB errE errB k' = true) :
    parent ++ '/' :: "sitemap.xml".toList ∉
      [parent] ++ (entries.map (fun kv => entrySpecDirs parent kv.1 kv.2)).flatten := by
  intro hm
  rw [List.mem_append, List.mem_singleton] at hm
  rcases hm with hm | hm
  · have := congrArg List.length hm
    simp only [List.length_append, List.length_cons] at this
    omega
  · rw [List.mem_flatten] at hm
    obtain ⟨l, hl, hml⟩ := hm
    rw [List.mem_map] at hl
    obtain ⟨kv, hkv, hkve⟩ := hl
    rw [← hkve] at hml
    have := entrySpecDirs_mem _ hml
    rw [folderPathOf] at this
    have hke : "sitemap.xml".toList = kv.1 := append_cons_inj this
    obtain ⟨_, _, _, h4, _⟩ := saneKey_props
      (hkeys kv.1 (List.mem_map.mpr ⟨kv, hkv, rfl⟩))
    exact h4 hke.symm

/-- A run on well-formed inputs (config and registry parse, template reads,
sane registry) completes without an exception and produces exactly the
expected logs, directories and file writes. -/
theorem runMain_good (env : Env) (cfg entries : List (List Char × JSON))
    (tpl : List Char) (h : goodEnv env cfg entries tpl) :
    runMain env = expectedSt env cfg entries tpl := by
  obtain ⟨hc, hr, ht, hpar, hpar2, herr, hsane⟩ := h
  rw [saneRegistryB, Bool.and_eq_true] at hsane
  obtain ⟨hnodup, hall⟩ := hsane
  have hkeys : ∀ k' ∈ entries.map (fun kv => kv.1),
      saneKeyB env.errorPageExists (basename env.args.error_page) k' = true := by
    intro k' hk'
    rw [List.mem_map] at hk'
    obtain ⟨kv, hkv, hke⟩ := hk'
    rw [List.all_eq_true] at hall
    have := hall kv hkv
    rw [Bool.and_eq_true] at this
    exact hke ▸ this.1
  cases hE : env.errorPageExists with
  | true =>
    obtain ⟨hb1, hb2, hb3⟩ := herr hE
    have hcopy : joinPath env.args.parent_folder (basename env.args.error_page) =
        env.args.parent_folder ++ '/' :: basename env.args.error_page :=
      joinPath_eq _ _ hpar hpar2 (head_ne_slash hb1 (slash_not_mem_basename _))
    cases hP : env.args.print with
    | true =>
      simp only [runMain, hc, hr, ht, hE, hP, load_config, dictGet, if_true,
        Bool.and_true, List.nil_append]
      rw [processEntries_sane tpl env.args.parent_folder true env.errorPageExists
        (basename env.args.error_page) hpar hpar2 entries _ hall hnodup
        (by
          rw [hcopy]
          exact fresh_initial _ _ _ _ _ _ _ (by intro w hw; rw [List.mem_singleton] at hw; rw [hw])
            hkeys (by intro hf; rw [hf] at hE; cases hE)) rfl]
      rw [if_neg (by simp)]
      simp only [generate_sitemap]
      rw [fsWrite_ok (by
          rw [sitemapPathOf_eq hpar hpar2]
          exact sitemap_not_in_dirs hkeys)
        (writes_ne_parent (by
          intro w hw
          rw [List.mem_singleton] at hw
          subst hw
          rw [hcopy]
          exact folderPathOf_ne_parent _ _))]
      rw [if_neg (by simp)]
      simp [expectedSt, expectedLogs, hE, hP, copyWrites, hcopy,
        sitemapPathOf_eq hpar hpar2, baseUrlJ, List.append_assoc]
    | false =>
      simp only [runMain, hc, hr, ht, hE, hP, load_config, dictGet, if_true,
        Bool.and_false, Bool.false_eq_true, if_false, List.nil_append]
      rw [processEntries_sane tpl env.args.parent_folder false env.errorPageExists
        (basename env.args.error_page) hpar hpar2 entries _ hall hnodup
        (by
          rw [hcopy]
          exact fresh_initial _ _ _ _ _ _ _ (by intro w hw; rw [List.mem_singleton] at hw; rw [hw])
            hkeys (by intro hf; rw [hf] at hE; cases hE)) rfl]
      rw [if_neg (by simp)]
      simp only [generate_sitemap]
      rw [fsWrite_ok (by
          rw [sitemapPathOf_eq hpar hpar2]
          exact sitemap_not_in_dirs hkeys)
        (writes_ne_parent (by
          intro w hw
          rw [List.mem_singleton] at hw
          subst hw
          rw [hcopy]
          exact folderPathOf_ne_parent _ _))]
      rw [if_neg (by simp)]
      simp [expectedSt, expectedLogs, hE, hP, copyWrites, hcopy,
        sitemapPathOf_eq hpar hpar2, baseUrlJ, List.append_assoc]
  | false =>
    cases hP : env.args.print with
    | true =>
      simp only [runMain, hc, hr, ht, hE, hP, load_config, dictGet, if_true,
        Bool.and_true, Bool.false_eq_true, if_false, List.nil_append]
      rw [processEntries_sane tpl env.args.parent_folder true env.errorPageExists
        (basename env.args.error_page) hpar hpar2 entries _ hall hnodup
        (fresh_initial _ (basename env.args.error_page) _ _ _ _ _
          (by intro w hw; cases hw) hkeys (fun _ => rfl)) rfl]
      rw [if_neg (by simp)]
      simp only [generate_sitemap]
      rw [fsWrite_ok (by
          rw [sitemapPathOf_eq hpar hpar2]
          exact sitemap_not_in_dirs hkeys)
        (writes_ne_parent (by intro w hw; cases hw))]
      rw [if_neg (by simp)]
      simp [expectedSt, expectedLogs, hE, hP, copyWrites,
        sitemapPathOf_eq hpar hpar2, baseUrlJ, List.append_assoc]
    | false =>
      simp only [runMain, hc, hr, ht, hE, hP, load_config, dictGet, if_true,
        Bool.and_false, Bool.false_eq_true, if_false, List.nil_append]
      rw [processEntries_sane tpl env.args.parent_folder false env.errorPageExists
        (basename env.args.error_page) hpar hpar2 entries _ hall hnodup
        (fresh_initial _ (basename env.args.error_page) _ _ _ _ _
          (by intro w hw; cases hw) hkeys (fun _ => rfl)) rfl]
      rw [if_neg (by simp)]
      simp only [generate_sitemap]
      rw [fsWrite_ok (by
          rw [sitemapPathOf_eq hpar hpar2]
          exact sitemap_not_in_dirs hkeys)
        (writes_ne_parent (by intro w hw; cases hw))]
      rw [if_neg (by simp)]
      simp [expectedSt, expectedLogs, hE, hP, copyWrites,
        sitemapPathOf_eq hpar hpar2, baseUrlJ, List.append_assoc]

/-! ## Locating final file contents -/

/-- `fileAt` over an append: the later segment wins. -/
theorem fileAt_append (xs ys : List (List Char × List Char)) (p : List Char) :
    fileAt (xs ++ ys) p =
      match fileAt ys p with
      | some c => some c
      | none => fileAt xs p := by
  rw [fileAt, fileAt, fileAt, List.reverse_append, List.find?_append]
  cases h : List.find? (fun w => w.1 == p) ys.reverse with
  | none => simp [Option.or, h]
  | some w => simp [Option.or, h]

/-- No write at `p` means no content at `p`. -/
theorem fileAt_none {ws : List (List Char × List Char)} {p : List Char}
    (h : ∀ w ∈ ws, w.1 ≠ p) : fileAt ws p = none := by
  rw [fileAt, List.find?_eq_none.mpr ?_]
  · rfl
  · intro w hw hbe
    exact h w (List.mem_reverse.mp hw) (by simpa using hbe)

/-- The content of a single write. -/
theorem fileAt_singleton_eq (q c : List Char) : fileAt [(q, c)] q = some c := by
  simp [fileAt, List.find?]

/-- In the loop's write list with distinct keys, the write at an entry's page
path is that entry's rendered page. -/
theorem fileAt_page (tpl parent : List Char) :
    ∀ (entries : List (List Char × JSON)) (k : List Char) (v : JSON),
      (k, v) ∈ entries →
      keysNodupB (entries.map (fun kv => kv.1)) = true →
      hasUrlB v = true →
      fileAt ((entries.map (fun kv => entrySpecWrites tpl parent kv.1 kv.2)).flatten)
        (pagePathOf parent k) = some (renderOf tpl k v) := by
  intro entries
  induction entries with
  | nil => intro k v hmem _ _; cases hmem
  | cons kv0 rest ih =>
    intro k v hmem hnodup hurl
    obtain ⟨k0, v0⟩ := kv0
    rw [List.map_cons, keysNodupB, Bool.and_eq_true] at hnodup
    obtain ⟨hnk, hnodup⟩ := hnodup
    rw [List.map_cons, List.flatten_cons, fileAt_append]
    rcases List.mem_cons.mp hmem with he | hmem2
    · rw [Prod.mk.injEq] at he
      obtain ⟨rfl, rfl⟩ := he
      have hnone : fileAt
          ((rest.map (fun kv => entrySpecWrites tpl parent kv.1 kv.2)).flatten)
          (pagePathOf parent k) = none := by
        apply fileAt_none
        intro w hw
        rw [List.mem_flatten] at hw
        obtain ⟨l, hl, hwl⟩ := hw
        rw [List.mem_map] at hl
        obtain ⟨kv', hkv', rfl⟩ := hl
        rw [entrySpecWrites_fst w hwl]
        intro hpe
        have hkk := pagePathOf_inj hpe
        rw [Bool.not_eq_true'] at hnk
        rw [(contains_iff_mem _ _).mpr (List.mem_map.mpr ⟨kv', hkv', hkk⟩)] at hnk
        cases hnk
      rw [hnone, entrySpecWrites, if_pos hurl]
      exact fileAt_singleton_eq _ _
    · rw [ih k v hmem2 hnodup hurl]

/-! ## Correctness of the sitemap recognizer on generated documents -/

/-- The fuel of `parseLocsF` is irrelevant once it exceeds the input length. -/
theorem parseLocsF_congr :
    ∀ f1 f2 (s : List Char), s.length < f1 → s.length < f2 →
      parseLocsF f1 s = parseLocsF f2 s := by
  intro f1
  induction f1 with
  | zero => intro f2 s h1 _; exact absurd h1 (by omega)
  | succ n ih =>
    intro f2 s h1 h2
    cases f2 with
    | zero => exact absurd h2 (by omega)
    | succ m =>
      simp only [parseLocsF]
      by_cases hcl : s = urlsetClose
      · rw [if_pos hcl, if_pos hcl]
      · rw [if_neg hcl, if_neg hcl]
        by_cases hbp : blockPre <+: s
        · rw [if_pos hbp, if_pos hbp]
          have hlen : 15 ≤ s.length := hbp.length_le
          by_cases hcond : xmlTextOkB ((s.drop blockPre.length).takeWhile
                (fun c => !(c == '<'))) = true ∧
              blockPost <+: ((s.drop blockPre.length).drop
                ((s.drop blockPre.length).takeWhile (fun c => !(c == '<'))).length)
          · have e1 : blockPre.length = 15 := by decide
            have e2 : blockPost.length = 15 := by decide
            rw [if_pos hcond, if_pos hcond,
              ih m _ (by simp only [List.length_drop, e1, e2]; omega)
                (by simp only [List.length_drop, e1, e2]; omega)]
          · rw [if_neg hcond, if_neg hcond]
        · rw [if_neg hbp, if_neg hbp]

/-- The parser accepts the closing tag alone. -/
theorem parseLocs_close : parseLocs urlsetClose = some [] := by decide

/-- XML-safe text passes the loc scanner. -/
theorem xmlTextOk_scan {s : List Char} (h : xmlTextOkB s = true) :
    ∀ c ∈ s, (!(c == '<')) = true := by
  intro c hc
  rw [xmlTextOkB, List.all_eq_true] at h
  have := h c hc
  rw [Bool.and_eq_true] at this
  exact this.1

/-- `takeWhile` stops exactly at the end of a satisfying block. -/
theorem takeWhile_append_of {p : Char → Bool} :
    ∀ a b : List Char, (∀ c ∈ a, p c = true) →
      (∀ x, b.head? = some x → p x = false) →
      (a ++ b).takeWhile p = a := by
  intro a
  induction a with
  | nil =>
    intro b _ hb
    cases b with
    | nil => rfl
    | cons x bs =>
      rw [List.nil_append, List.takeWhile_cons, hb x rfl]
      simp
  | cons c a ih =>
    intro b ha hb
    rw [List.cons_append, List.takeWhile_cons, ha c (List.mem_cons_self c a), if_pos rfl,
      ih b (fun d hd => ha d (List.mem_cons_of_mem _ hd)) hb]

/-- One `<url>` block consumed by the parser (abstract remaining fuel, so
the recursion stays opaque). -/
theorem parseLocsF_block (n : Nat) (loc rest : List Char) (hok : xmlTextOkB loc = true) :
    parseLocsF (n + 1) (blockPre ++ (loc ++ (blockPost ++ rest))) =
      (parseLocsF n rest).map (fun ls => loc :: ls) := by
  have hne : blockPre ++ (loc ++ (blockPost ++ rest)) ≠ urlsetClose := by
    intro he
    have h2 := congrArg List.head? he
    simp [blockPre, urlsetClose] at h2
  have hdrop : (blockPre ++ (loc ++ (blockPost ++ rest))).drop blockPre.length =
      loc ++ (blockPost ++ rest) := List.drop_left _ _
  have htw : (loc ++ (blockPost ++ rest)).takeWhile (fun c => !(c == '<')) = loc := by
    apply takeWhile_append_of loc _ (xmlTextOk_scan hok)
    intro x hx
    have hbp : blockPost = '<' :: "/loc>\n\t</url>\n".toList := by decide
    rw [hbp, List.cons_append] at hx
    simp only [List.head?, Option.some.injEq] at hx
    rw [← hx]
    rfl
  simp only [parseLocsF]
  rw [if_neg hne, if_pos (List.prefix_append _ _), hdrop, htw, List.drop_left,
    if_pos ⟨hok, List.prefix_append _ _⟩, List.drop_left]

/-- A `<url>` block is the pre text, the loc text and the post text. -/
theorem urlBlock_eq (b k : List Char) :
    urlBlock b k = blockPre ++ locOf b k ++ blockPost := by
  simp [urlBlock, locOf, blockPre, blockPost, List.append_assoc]

/-- The parser recovers the loc list of a generated sitemap body. -/
theorem parseLocs_flatten (b : List Char) :
    ∀ pages : List (List Char), (∀ k ∈ pages, xmlTextOkB (locOf b k) = true) →
      parseLocs ((pages.map (fun page => urlBlock b page)).flatten ++ urlsetClose) =
        some (pages.map (locOf b)) := by
  intro pages
  induction pages with
  | nil => intro _; rw [List.map_nil, List.flatten_nil, List.nil_append]; exact parseLocs_close
  | cons k ps ih =>
    intro hok
    rw [List.map_cons, List.flatten_cons, urlBlock_eq]
    rw [show blockPre ++ locOf b k ++ blockPost ++
          (ps.map (fun page => urlBlock b page)).flatten ++ urlsetClose =
        blockPre ++ (locOf b k ++ (blockPost ++
          ((ps.map (fun page => urlBlock b page)).flatten ++ urlsetClose))) by
      simp [List.append_assoc]]
    rw [parseLocs]
    have e1 : blockPre.length = 15 := by decide
    have e2 : blockPost.length = 15 := by decide
    rw [show (blockPre ++ (locOf b k ++ (blockPost ++
          ((ps.map (fun page => urlBlock b page)).flatten ++ urlsetClose)))).length + 1 =
        (blockPre ++ (locOf b k ++ (blockPost ++
          ((ps.map (fun page => urlBlock b page)).flatten ++ urlsetClose)))).length + 1 from rfl]
    rw [parseLocsF_block _ _ _ (hok k (List.mem_cons_self k ps))]
    rw [parseLocsF_congr _
      (((ps.map (fun page => urlBlock b page)).flatten ++ urlsetClose).length + 1) _
      (by simp only [List.length_append, e1, e2]; omega) (by omega)]
    rw [show parseLocsF
        (((ps.map (fun page => urlBlock b page)).flatten ++ urlsetClose).length + 1)
        ((ps.map (fun page => urlBlock b page)).flatten ++ urlsetClose) =
      parseLocs ((ps.map (fun page => urlBlock b page)).flatten ++ urlsetClose) from rfl]
    rw [ih (fun k2 hk2 => hok k2 (List.mem_cons_of_mem _ hk2)), List.map_cons]
    rfl

/-- The recognizer accepts every sitemap generated from XML-safe keys and
base URL, and returns exactly the emitted locs in registry order. -/
theorem checkSitemap_gen (data : List (List Char × JSON)) (b : List Char)
    (hok : ∀ k ∈ sitemapPages data, xmlTextOkB (locOf b k) = true) :
    checkSitemap (sitemapXml data (.str b)) = some ((sitemapPages data).map (locOf b)) := by
  rw [checkSitemap, sitemapXml]
  rw [show pyStr (JSON.str b) = b from rfl]
  rw [show sitemapDecl ++ urlsetOpen ++
      ((sitemapPages data).map (fun page => urlBlock b page)).flatten ++ urlsetClose =
    (sitemapDecl ++ urlsetOpen) ++
      (((sitemapPages data).map (fun page => urlBlock b page)).flatten ++ urlsetClose) by
    simp [List.append_assoc]]
  rw [if_pos (List.prefix_append _ _), List.drop_left]
  exact parseLocs_flatten b (sitemapPages data) hok

/-! ## Run-level extraction helpers -/

/-- A single write at a different path yields nothing. -/
theorem fileAt_singleton_ne {q c p : List Char} (h : q ≠ p) : fileAt [(q, c)] p = none :=
  fileAt_none (by
    intro w hw
    rw [List.mem_singleton] at hw
    rw [hw]
    exact h)

/-- With distinct keys, an entry is determined by its key. -/
theorem key_unique :
    ∀ {entries : List (List Char × JSON)},
      keysNodupB (entries.map (fun kv => kv.1)) = true →
      ∀ {a b : List Char × JSON}, a ∈ entries → b ∈ entries → a.1 = b.1 → a = b := by
  intro entries
  induction entries with
  | nil => intro _ a b ha; cases ha
  | cons kv rest ih =>
    intro hnodup a b ha hb he
    rw [List.map_cons, keysNodupB, Bool.and_eq_true] at hnodup
    obtain ⟨hnk, hnodup⟩ := hnodup
    rw [Bool.not_eq_true'] at hnk
    rcases List.mem_cons.mp ha with ha' | ha' <;> rcases List.mem_cons.mp hb with hb' | hb'
    · rw [ha', hb']
    · exfalso
      rw [(contains_iff_mem _ _).mpr
        (List.mem_map.mpr ⟨b, hb', by rw [← he, ha']⟩)] at hnk
      cases hnk
    · exfalso
      rw [(contains_iff_mem _ _).mpr
        (List.mem_map.mpr ⟨a, ha', by rw [he, hb']⟩)] at hnk
      cases hnk
    · exact ih hnodup ha' hb' he

/-- The copied error page's path differs from every sane page path. -/
theorem copy_ne_pagePath {parent errB k : List Char} (hs : '/' ∉ errB)
    (hih : errB ≠ "index.html".toList) :
    parent ++ '/' :: errB ≠ pagePathOf parent k := by
  intro he
  rw [pagePathOf] at he
  by_cases hki : k = "index".toList
  · rw [if_pos hki] at he
    exact hih (append_cons_inj he)
  · rw [if_neg hki] at he
    have := append_cons_inj he
    apply hs
    rw [this]
    exact List.mem_append_right _ (List.mem_cons_self _ _)

/-- The final content at a rendered entry's page path. -/
theorem run_fileAt_page (env : Env) (cfg entries : List (List Char × JSON))
    (tpl : List Char) (h : goodEnv env cfg entries tpl)
    {k : List Char} {v : JSON} (hmem : (k, v) ∈ entries) (hurl : hasUrlB v = true) :
    fileAt (runMain env).writes (pagePathOf env.args.parent_folder k) =
      some (renderOf tpl k v) := by
  have hq := h
  obtain ⟨_, _, _, hpar, hpar2, _, hsane⟩ := hq
  rw [saneRegistryB, Bool.and_eq_true] at hsane
  obtain ⟨hnodup, _⟩ := hsane
  rw [runMain_good env cfg entries tpl h]
  show fileAt (copyWrites env ++ _ ++ [_]) _ = _
  rw [fileAt_append, fileAt_singleton_ne (by
    rw [sitemapPathOf_eq hpar hpar2]
    exact (pagePathOf_ne_sitemap _ k).symm)]
  rw [fileAt_append, fileAt_page tpl env.args.parent_folder entries k v hmem hnodup hurl]

/-- The final content at the sitemap path. -/
theorem run_fileAt_sitemap (env : Env) (cfg entries : List (List Char × JSON))
    (tpl : List Char) (h : goodEnv env cfg entries tpl) :
    fileAt (runMain env).writes (sitemapPathOf env.args.parent_folder) =
      some (sitemapXml entries (baseUrlJ cfg)) := by
  rw [runMain_good env cfg entries tpl h]
  show fileAt (copyWrites env ++ _ ++ [_]) _ = _
  rw [fileAt_append, fileAt_singleton_eq]

/-- No file appears at the page path of an entry lacking `url`. -/
theorem run_fileAt_skipped (env : Env) (cfg entries : List (List Char × JSON))
    (tpl : List Char) (h : goodEnv env cfg entries tpl)
    {k : List Char} {v : JSON} (hmem : (k, v) ∈ entries) (hnourl : hasUrlB v = false) :
    fileAt (runMain env).writes (pagePathOf env.args.parent_folder k) = none := by
  have hq := h
  obtain ⟨_, _, _, hpar, hpar2, herr, hsane⟩ := hq
  rw [saneRegistryB, Bool.and_eq_true] at hsane
  obtain ⟨hnodup, _⟩ := hsane
  rw [runMain_good env cfg entries tpl h]
  show fileAt (copyWrites env ++ _ ++ [_]) _ = _
  rw [fileAt_append, fileAt_singleton_ne (by
    rw [sitemapPathOf_eq hpar hpar2]
    exact (pagePathOf_ne_sitemap _ k).symm)]
  rw [fileAt_append, fileAt_none, fileAt_none]
  · intro w hw
    rw [copyWrites] at hw
    cases hE : env.errorPageExists with
    | false =>
      rw [hE] at hw
      simp only [if_neg Bool.false_ne_true] at hw
      cases hw
    | true =>
      rw [hE, if_pos rfl, List.mem_singleton] at hw
      obtain ⟨hb1, hb2, _⟩ := herr hE
      rw [hw,
        joinPath_eq _ _ hpar hpar2 (head_ne_slash hb1 (slash_not_mem_basename _))]
      exact copy_ne_pagePath (slash_not_mem_basename _) hb2
  · intro w hw
    rw [List.mem_flatten] at hw
    obtain ⟨l, hl, hwl⟩ := hw
    rw [List.mem_map] at hl
    obtain ⟨kv', hkv', rfl⟩ := hl
    rw [entrySpecWrites_fst w hwl]
    intro hpe
    have hke := pagePathOf_inj hpe
    have := key_unique hnodup hkv' hmem hke
    rw [this] at hwl
    rw [entrySpecWrites, if_neg (by rw [hnourl]; exact Bool.false_ne_true)] at hwl
    cases hwl

/-- The directories of a successful run. -/
theorem run_dirs (env : Env) (cfg entries : List (List Char × JSON))
    (tpl : List Char) (h : goodEnv env cfg entries tpl) :
    (runMain env).dirs = env.args.parent_folder ::
      (entries.map (fun kv => entrySpecDirs env.args.parent_folder kv.1 kv.2)).flatten := by
  rw [runMain_good env cfg entries tpl h]
  rfl

/-- A successful run raises no exception. -/
theorem run_exc (env : Env) (cfg entries : List (List Char × JSON))
    (tpl : List Char) (h : goodEnv env cfg entries tpl) :
    (runMain env).exc = none := by
  rw [runMain_good env cfg entries tpl h]
  rfl

/-- The directory of a non-root rendered entry is created. -/
theorem run_folder_mem (env : Env) (cfg entries : List (List Char × JSON))
    (tpl : List Char) (h : goodEnv env cfg entries tpl)
    {k : List Char} {v : JSON} (hmem : (k, v) ∈ entries) (hurl : hasUrlB v = true)
    (hki : k ≠ "index".toList) :
    folderPathOf env.args.parent_folder k ∈ (runMain env).dirs := by
  rw [run_dirs env cfg entries tpl h]
  apply List.mem_cons_of_mem
  rw [List.mem_flatten]
  refine ⟨entrySpecDirs env.args.parent_folder k v, List.mem_map.mpr ⟨(k, v), hmem, rfl⟩, ?_⟩
  rw [entrySpecDirs, if_pos (by
    rw [hurl, Bool.true_and, Bool.not_eq_true', beq_eq_false_iff_ne]
    exact hki)]
  exact List.mem_singleton.mpr rfl

/-- No directory is created for the root-sentinel key. -/
theorem run_folder_index_not_mem (env : Env) (cfg entries : List (List Char × JSON))
    (tpl : List Char) (h : goodEnv env cfg entries tpl) :
    folderPathOf env.args.parent_folder "index".toList ∉ (runMain env).dirs := by
  rw [run_dirs env cfg entries tpl h]
  intro hm
  rcases List.mem_cons.mp hm with hm | hm
  · exact folderPathOf_ne_parent _ _ hm
  · rw [List.mem_flatten] at hm
    obtain ⟨l, hl, hml⟩ := hm
    rw [List.mem_map] at hl
    obtain ⟨kv', hkv', rfl⟩ := hl
    have hfe := entrySpecDirs_mem _ hml
    have hke : kv'.1 = "index".toList := append_cons_inj hfe.symm
    rw [entrySpecDirs] at hml
    by_cases hcond : (hasUrlB kv'.2 && !(kv'.1 == "index".toList)) = true
    · rw [Bool.and_eq_true, Bool.not_eq_true', beq_eq_false_iff_ne] at hcond
      exact hcond.2 hke
    · rw [if_neg hcond] at hml
      cases hml

/-- No directory is created for an entry lacking `url`. -/
theorem run_folder_skipped_not_mem (env : Env) (cfg entries : List (List Char × JSON))
    (tpl : List Char) (h : goodEnv env cfg entries tpl)
    {k : List Char} {v : JSON} (hmem : (k, v) ∈ entries) (hnourl : hasUrlB v = false) :
    folderPathOf env.args.parent_folder k ∉ (runMain env).dirs := by
  have hsane := h.2.2.2.2.2.2
  rw [saneRegistryB, Bool.and_eq_true] at hsane
  obtain ⟨hnodup, _⟩ := hsane
  rw [run_dirs env cfg entries tpl h]
  intro hm
  rcases List.mem_cons.mp hm with hm | hm
  · exact folderPathOf_ne_parent _ _ hm
  · rw [List.mem_flatten] at hm
    obtain ⟨l, hl, hml⟩ := hm
    rw [List.mem_map] at hl
    obtain ⟨kv', hkv', rfl⟩ := hl
    have hfe := entrySpecDirs_mem _ hml
    have hke : kv'.1 = k := append_cons_inj hfe.symm
    have := key_unique hnodup hkv' hmem hke
    rw [this, entrySpecDirs, if_neg (by rw [hnourl, Bool.false_and]; exact Bool.false_ne_true)] at hml
    cases hml

/-- The skip diagnostic of an entry lacking `url` is logged. -/
theorem run_log_skipped (env : Env) (cfg entries : List (List Char × JSON))
    (tpl : List Char) (h : goodEnv env cfg entries tpl)
    {k : List Char} {v : JSON} (hmem : (k, v) ∈ entries) (hnourl : hasUrlB v = false) :
    LogEvent.urlRequired k ∈ (runMain env).logs := by
  rw [runMain_good env cfg entries tpl h]
  show LogEvent.urlRequired k ∈ expectedLogs env entries
  rw [expectedLogs]
  refine List.mem_append_left _ (List.mem_append_right _ ?_)
  rw [List.mem_flatten]
  refine ⟨entrySpecLogs env.args.print env.args.parent_folder k v,
    List.mem_map.mpr ⟨(k, v), hmem, rfl⟩, ?_⟩
  rw [entrySpecLogs, if_neg (by rw [hnourl]; exact Bool.false_ne_true)]
  exact List.mem_singleton.mpr rfl

/-- Length of the loop's write list: one write per entry with a `url`. -/
theorem flatten_writes_length (tpl parent : List Char) :
    ∀ entries : List (List Char × JSON),
      ((entries.map (fun kv => entrySpecWrites tpl parent kv.1 kv.2)).flatten).length =
        (entries.filter (fun kv => hasUrlB kv.2)).length := by
  intro entries
  induction entries with
  | nil => rfl
  | cons kv rest ih =>
    rw [List.map_cons, List.flatten_cons, List.length_append, ih, List.filter_cons]
    by_cases hurl : hasUrlB kv.2 = true
    · rw [if_pos hurl, entrySpecWrites, if_pos hurl]
      simp [Nat.add_comm]
    · rw [if_neg hurl, entrySpecWrites,
        if_neg (by rw [Bool.not_eq_true] at hurl; rw [hurl]; exact Bool.false_ne_true)]
      simp

/-- Total number of files written by a successful run. -/
theorem run_writes_length (env : Env) (cfg entries : List (List Char × JSON))
    (tpl : List Char) (h : goodEnv env cfg entries tpl) :
    (runMain env).writes.length =
      (if env.errorPageExists then 1 else 0) +
        (entries.filter (fun kv => hasUrlB kv.2)).length + 1 := by
  rw [runMain_good env cfg entries tpl h]
  show (copyWrites env ++ _ ++ [_]).length = _
  rw [List.length_append, List.length_append, flatten_writes_length]
  have hc : (copyWrites env).length = if env.errorPageExists then 1 else 0 := by
    rw [copyWrites]
    cases env.errorPageExists <;> rfl
  rw [hc]
  rfl

/-! ## The claims -/

/-- C1: the claim says a missing or unparsable config file logs a diagnostic
and the run continues with `base_url = ""`.  The code violates it:
`load_config` returns the Python string `''` and `main` line 73 calls
`.get` on it, raising an uncaught `AttributeError` that aborts the run
before any output is produced.  This theorem evaluates both failing runs:
the diagnostic is logged, but the run ends with the exception and no file
or directory is touched. -/
theorem C1_config_failure_crashes :
    runMain envConfigMissing =
      ⟨[.configMissing defaultArgs.config_file], false, [], [], some .attributeError⟩ ∧
    runMain envConfigInvalid =
      ⟨[.configInvalid defaultArgs.config_file], false, [], [], some .attributeError⟩ :=
  ⟨rfl, rfl⟩

/-- C2 (counterexample): a registry whose single entry lacks `url` renders
no page, yet the emitted sitemap carries one `<loc>` for that key — so the
sitemap entry count (1) differs from the rendered-page count (0), refuting
the claim as stated. -/
theorem C2_sitemap_vs_rendered_cex :
    (runMain envOneSkipped).writes =
      [(sitemapPathOf "_site".toList, sitemapXml [("a".toList, .obj [])] (.str []))] ∧
    checkSitemap (sitemapXml [("a".toList, .obj [])] (.str [])) = some ["/a/".toList] ∧
    (runMain envOneSkipped).logs =
      [.errorPageMissing defaultArgs.error_page, .urlRequired "a".toList] :=
  ⟨rfl, rfl, rfl⟩

/-- C2 (amended): the sitemap contains exactly one entry per registry key —
entries skipped for a missing `url` included — so its entry count equals the
number of registry keys, while the number of rendered pages is the number of
entries whose `url` is present (the error-page copy and the sitemap itself
account for the rest of the write count). -/
theorem C2_sitemap_counts_all_keys (env : Env) (cfg entries : List (List Char × JSON))
    (tpl : List Char) (h : goodEnv env cfg entries tpl) :
    fileAt (runMain env).writes (sitemapPathOf env.args.parent_folder) =
      some (sitemapXml entries (baseUrlJ cfg)) ∧
    (sitemapPages entries).length = entries.length ∧
    (runMain env).writes.length =
      (if env.errorPageExists then 1 else 0) +
        (entries.filter (fun kv => hasUrlB kv.2)).length + 1 :=
  ⟨run_fileAt_sitemap env cfg entries tpl h,
   by rw [sitemapPages, List.length_map],
   run_writes_length env cfg entries tpl h⟩

/-- Witness for C2 at a concrete environment with one skipped entry. -/
theorem C2_sitemap_counts_all_keys_w :
    goodEnv envGood cfgGood entriesGood tplGood ∧
    (fileAt (runMain envGood).writes (sitemapPathOf envGood.args.parent_folder) =
      some (sitemapXml entriesGood (baseUrlJ cfgGood)) ∧
     (sitemapPages entriesGood).length = entriesGood.length ∧
     (runMain envGood).writes.length =
       (if envGood.errorPageExists then 1 else 0) +
         (entriesGood.filter (fun kv => hasUrlB kv.2)).length + 1) := by
  have hg : goodEnv envGood cfgGood entriesGood tplGood :=
    ⟨rfl, rfl, rfl, by decide, by decide,
     fun _ => ⟨by decide, by decide, by decide⟩, by decide⟩
  exact ⟨hg, C2_sitemap_counts_all_keys envGood cfgGood entriesGood tplGood hg⟩

/-- C3: for every well-formed run and every entry with a `url`, the page
written for that entry is the template transformed by sequential literal
replacement of the five tokens in the fixed order title, heading, url,
description, image — the title value substituted for both the title and
heading tokens, `title` and `description` defaulting to the key and `image`
to the empty string. -/
theorem C3_render_formula (env : Env) (cfg entries : List (List Char × JSON))
    (tpl : List Char) (h : goodEnv env cfg entries tpl)
    (k : List Char) (v : JSON) (hmem : (k, v) ∈ entries) (hurl : hasUrlB v = true) :
    fileAt (runMain env).writes (pagePathOf env.args.parent_folder k) =
      some (replaceAll tokImage (imgOf v)
        (replaceAll tokDescription (descOf k v)
          (replaceAll tokUrl (urlOf v)
            (replaceAll tokHeading (titleOf k v)
              (replaceAll tokTitle (titleOf k v) tpl))))) :=
  run_fileAt_page env cfg entries tpl h hmem hurl

/-- Witness for C3 at the `docs` entry of the concrete environment. -/
theorem C3_render_formula_w :
    goodEnv envGood cfgGood entriesGood tplGood ∧
    ("docs".toList, JSON.obj [("url".toList, .str "https://example.com/docs".toList),
        ("title".toList, .str "Docs".toList)]) ∈ entriesGood ∧
    hasUrlB (JSON.obj [("url".toList, .str "https://example.com/docs".toList),
        ("title".toList, .str "Docs".toList)]) = true ∧
    fileAt (runMain envGood).writes (pagePathOf envGood.args.parent_folder "docs".toList) =
      some (replaceAll tokImage (imgOf (JSON.obj [("url".toList, .str "https://example.com/docs".toList), ("title".toList, .str "Docs".toList)]))
        (replaceAll tokDescription (descOf "docs".toList (JSON.obj [("url".toList, .str "https://example.com/docs".toList), ("title".toList, .str "Docs".toList)]))
          (replaceAll tokUrl (urlOf (JSON.obj [("url".toList, .str "https://example.com/docs".toList), ("title".toList, .str "Docs".toList)]))
            (replaceAll tokHeading (titleOf "docs".toList (JSON.obj [("url".toList, .str "https://example.com/docs".toList), ("title".toList, .str "Docs".toList)]))
              (replaceAll tokTitle (titleOf "docs".toList (JSON.obj [("url".toList, .str "https://example.com/docs".toList), ("title".toList, .str "Docs".toList)])) tplGood))))) := by
  have hg : goodEnv envGood cfgGood entriesGood tplGood :=
    ⟨rfl, rfl, rfl, by decide, by decide,
     fun _ => ⟨by decide, by decide, by decide⟩, by decide⟩
  have hm : ("docs".toList, JSON.obj [("url".toList, .str "https://example.com/docs".toList),
      ("title".toList, .str "Docs".toList)]) ∈ entriesGood :=
    List.mem_cons_of_mem _ (List.mem_cons_self _ _)
  exact ⟨hg, hm, by decide, C3_render_formula envGood cfgGood entriesGood tplGood hg
    "docs".toList _ hm (by decide)⟩

/-- C4 (counterexample): a registry key equal to the copied error page's
file name finds a plain file at its folder path; the makedirs step is
skipped, and the subsequent page write raises an uncaught
`NotADirectoryError`, so no page is written for the entry — refuting the
claim's "skipped without failure … and the rendered page is written". -/
theorem C4_collision_cex :
    (runMain envKeyCollision).exc = some .notADirectoryError ∧
    (runMain envKeyCollision).writes = [("_site/404.html".toList, "err".toList)] ∧
    (runMain envKeyCollision).dirs = ["_site".toList] :=
  ⟨rfl, rfl, rfl⟩

/-- C4 (amended): for entries whose key does not collide with a file placed
at the top level (error-page copy), the root sentinel `index` is written to
`<output>/index.html` with no subdirectory created for it, and every other
key gets its directory `<output>/<key>/` created and its page written to
`<output>/<key>/index.html`; a key colliding with the copied error page
instead aborts the run with `NotADirectoryError`. -/
theorem C4_output_paths (env : Env) (cfg entries : List (List Char × JSON))
    (tpl : List Char) (h : goodEnv env cfg entries tpl)
    (k : List Char) (v : JSON) (hmem : (k, v) ∈ entries) (hurl : hasUrlB v = true) :
    (k = "index".toList →
      fileAt (runMain env).writes (env.args.parent_folder ++ '/' :: "index.html".toList) =
        some (renderOf tpl k v) ∧
      folderPathOf env.args.parent_folder "index".toList ∉ (runMain env).dirs) ∧
    (k ≠ "index".toList →
      folderPathOf env.args.parent_folder k ∈ (runMain env).dirs ∧
      fileAt (runMain env).writes (pagePathOf env.args.parent_folder k) =
        some (renderOf tpl k v)) := by
  constructor
  · intro hki
    constructor
    · have hp := run_fileAt_page env cfg entries tpl h hmem hurl
      rw [pagePathOf, if_pos hki] at hp
      exact hp
    · exact run_folder_index_not_mem env cfg entries tpl h
  · intro hki
    exact ⟨run_folder_mem env cfg entries tpl h hmem hurl hki,
      run_fileAt_page env cfg entries tpl h hmem hurl⟩

/-- Witness for C4 at the root entry of the concrete environment. -/
theorem C4_output_paths_w :
    goodEnv envGood cfgGood entriesGood tplGood ∧
    ("index".toList, JSON.obj [("url".toList, .str "https://example.com".toList)]) ∈
      entriesGood ∧
    hasUrlB (JSON.obj [("url".toList, .str "https://example.com".toList)]) = true ∧
    (("index".toList : List Char) = "index".toList →
      fileAt (runMain envGood).writes
          (envGood.args.parent_folder ++ '/' :: "index.html".toList) =
        some (renderOf tplGood "index".toList
          (JSON.obj [("url".toList, .str "https://example.com".toList)])) ∧
      folderPathOf envGood.args.parent_folder "index".toList ∉ (runMain envGood).dirs) ∧
    (("index".toList : List Char) ≠ "index".toList →
      folderPathOf envGood.args.parent_folder "index".toList ∈ (runMain envGood).dirs ∧
      fileAt (runMain envGood).writes
          (pagePathOf envGood.args.parent_folder "index".toList) =
        some (renderOf tplGood "index".toList
          (JSON.obj [("url".toList, .str "https://example.com".toList)]))) := by
  have hg : goodEnv envGood cfgGood entriesGood tplGood :=
    ⟨rfl, rfl, rfl, by decide, by decide,
     fun _ => ⟨by decide, by decide, by decide⟩, by decide⟩
  have hm : ("index".toList, JSON.obj [("url".toList, .str "https://example.com".toList)]) ∈
      entriesGood := List.mem_cons_self _ _
  have hc := C4_output_paths envGood cfgGood entriesGood tplGood hg
    "index".toList _ hm (by decide)
  exact ⟨hg, hm, by decide, hc.1, hc.2⟩

/-- C5 (counterexample): with the template equal to the image token and the
entry's `image` value equal to the literal text of the title token, the
written page is exactly the title token — a placeholder token remains in
the output, refuting the claim as stated. -/
theorem C5_token_reintroduced_cex :
    fileAt (runMain envTokenSmuggle).writes ("_site/a/index.html".toList) =
      some "\x7b\x7b title \x7d\x7d".toList ∧
    tokTitle <:+: "\x7b\x7b title \x7d\x7d".toList :=
  ⟨rfl, by decide⟩

/-- C5 (amended): if the template decomposes into brace-free literal
segments interleaved with exact token occurrences, and the entry's
substituted values contain no opening brace, then the page written for the
entry contains none of the five placeholder tokens. -/
theorem C5_no_tokens_left (env : Env) (cfg entries : List (List Char × JSON))
    (tpl : List Char) (segs : List Seg) (h : goodEnv env cfg entries tpl)
    (k : List Char) (v : JSON) (hmem : (k, v) ∈ entries) (hurl : hasUrlB v = true)
    (htpl : tpl = flattenSegs segs) (hsegs : segsOkB segs = true)
    (h1 : braceFreeB (titleOf k v) = true) (h2 : braceFreeB (urlOf v) = true)
    (h3 : braceFreeB (descOf k v) = true) (h4 : braceFreeB (imgOf v) = true) :
    fileAt (runMain env).writes (pagePathOf env.args.parent_folder k) =
      some (renderOf tpl k v) ∧
    ∀ i : Fin 5, ¬ tokenOf i <:+: renderOf tpl k v := by
  refine ⟨run_fileAt_page env cfg entries tpl h hmem hurl, ?_⟩
  intro i hinf
  rw [renderOf, htpl, renderEntry_segs segs _ _ _ _ hsegs h1 h2 h3 h4] at hinf
  have hnb := flattenSegs_subst_no_brace
    (valsOf (titleOf k v) (urlOf v) (descOf k v) (imgOf v))
    (fun j => by
      rw [valsOf]
      by_cases hj0 : j.val = 0 ∨ j.val = 1
      · rw [if_pos hj0]; exact h1
      · rw [if_neg hj0]
        by_cases hj2 : j.val = 2
        · rw [if_pos hj2]; exact h2
        · rw [if_neg hj2]
          by_cases hj3 : j.val = 3
          · rw [if_pos hj3]; exact h3
          · rw [if_neg hj3]; exact h4)
    segs hsegs
  exact hnb (hinf.subset (tokenOf_has_brace i))

/-- Witness for C5 at the `docs` entry, with the template decomposition. -/
theorem C5_no_tokens_left_w :
    goodEnv envGood cfgGood entriesGood tplGood ∧
    tplGood = flattenSegs segsDemo ∧
    segsOkB segsDemo = true ∧
    (fileAt (runMain envGood).writes (pagePathOf envGood.args.parent_folder "docs".toList) =
      some (renderOf tplGood "docs".toList
        (JSON.obj [("url".toList, .str "https://example.com/docs".toList),
          ("title".toList, .str "Docs".toList)])) ∧
     ∀ i : Fin 5, ¬ tokenOf i <:+: renderOf tplGood "docs".toList
        (JSON.obj [("url".toList, .str "https://example.com/docs".toList),
          ("title".toList, .str "Docs".toList)])) := by
  have hg : goodEnv envGood cfgGood entriesGood tplGood :=
    ⟨rfl, rfl, rfl, by decide, by decide,
     fun _ => ⟨by decide, by decide, by decide⟩, by decide⟩
  have hm : ("docs".toList, JSON.obj [("url".toList, .str "https://example.com/docs".toList),
      ("title".toList, .str "Docs".toList)]) ∈ entriesGood :=
    List.mem_cons_of_mem _ (List.mem_cons_self _ _)
  exact ⟨hg, by decide, by decide,
    C5_no_tokens_left envGood cfgGood entriesGood tplGood segsDemo hg
      "docs".toList _ hm (by decide) (by decide) (by decide)
      (by decide) (by decide) (by decide) (by decide)⟩

/-- C6: on a well-formed run whose base URL is a string and whose keys and
base URL are XML-safe, the file written at the sitemap path is accepted by
the `urlset` recognizer (exact XML declaration, sitemap-protocol namespace,
and a sequence of `<url><loc>…</loc></url>` blocks), and its locs are
exactly `{base_url}/{key}/` for every registry key — the root-sentinel key
included — in registry iteration order. -/
theorem C6_sitemap_wellformed (env : Env) (cfg entries : List (List Char × JSON))
    (tpl : List Char) (h : goodEnv env cfg entries tpl)
    (b : List Char) (hb : baseUrlJ cfg = .str b)
    (hok : ∀ k ∈ sitemapPages entries, xmlTextOkB (locOf b k) = true) :
    fileAt (runMain env).writes (sitemapPathOf env.args.parent_folder) =
      some (sitemapXml entries (baseUrlJ cfg)) ∧
    checkSitemap (sitemapXml entries (baseUrlJ cfg)) =
      some ((sitemapPages entries).map (locOf b)) := by
  refine ⟨run_fileAt_sitemap env cfg entries tpl h, ?_⟩
  rw [hb]
  exact checkSitemap_gen entries b hok

/-- Witness for C6 at the concrete environment. -/
theorem C6_sitemap_wellformed_w :
    goodEnv envGood cfgGood entriesGood tplGood ∧
    baseUrlJ cfgGood = .str "https://s.example".toList ∧
    (∀ k ∈ sitemapPages entriesGood,
      xmlTextOkB (locOf "https://s.example".toList k) = true) ∧
    (fileAt (runMain envGood).writes (sitemapPathOf envGood.args.parent_folder) =
      some (sitemapXml entriesGood (baseUrlJ cfgGood)) ∧
     checkSitemap (sitemapXml entriesGood (baseUrlJ cfgGood)) =
      some ((sitemapPages entriesGood).map (locOf "https://s.example".toList))) := by
  have hg : goodEnv envGood cfgGood entriesGood tplGood :=
    ⟨rfl, rfl, rfl, by decide, by decide,
     fun _ => ⟨by decide, by decide, by decide⟩, by decide⟩
  exact ⟨hg, rfl, by decide,
    C6_sitemap_wellformed envGood cfgGood entriesGood tplGood hg
      "https://s.example".toList rfl (by decide)⟩

/-- C7: an entry lacking `url` gets the skip diagnostic logged, no file at
its page path and no directory for its key, and the run continues — no
exception, and the sitemap is still written. -/
theorem C7_missing_url_skipped (env : Env) (cfg entries : List (List Char × JSON))
    (tpl : List Char) (h : goodEnv env cfg entries tpl)
    (k : List Char) (v : JSON) (hmem : (k, v) ∈ entries) (hnourl : hasUrlB v = false) :
    LogEvent.urlRequired k ∈ (runMain env).logs ∧
    fileAt (runMain env).writes (pagePathOf env.args.parent_folder k) = none ∧
    folderPathOf env.args.parent_folder k ∉ (runMain env).dirs ∧
    (runMain env).exc = none ∧
    fileAt (runMain env).writes (sitemapPathOf env.args.parent_folder) =
      some (sitemapXml entries (baseUrlJ cfg)) :=
  ⟨run_log_skipped env cfg entries tpl h hmem hnourl,
   run_fileAt_skipped env cfg entries tpl h hmem hnourl,
   run_folder_skipped_not_mem env cfg entries tpl h hmem hnourl,
   run_exc env cfg entries tpl h,
   run_fileAt_sitemap env cfg entries tpl h⟩

/-- Witness for C7 at the `nourl` entry of the concrete environment. -/
theorem C7_missing_url_skipped_w :
    goodEnv envGood cfgGood entriesGood tplGood ∧
    ("nourl".toList, JSON.obj [("title".toList, .str "No target".toList)]) ∈ entriesGood ∧
    hasUrlB (JSON.obj [("title".toList, .str "No target".toList)]) = false ∧
    (LogEvent.urlRequired "nourl".toList ∈ (runMain envGood).logs ∧
     fileAt (runMain envGood).writes (pagePathOf envGood.args.parent_folder "nourl".toList) =
       none ∧
     folderPathOf envGood.args.parent_folder "nourl".toList ∉ (runMain envGood).dirs ∧
     (runMain envGood).exc = none ∧
     fileAt (runMain envGood).writes (sitemapPathOf envGood.args.parent_folder) =
       some (sitemapXml entriesGood (baseUrlJ cfgGood))) := by
  have hg : goodEnv envGood cfgGood entriesGood tplGood :=
    ⟨rfl, rfl, rfl, by decide, by decide,
     fun _ => ⟨by decide, by decide, by decide⟩, by decide⟩
  have hm : ("nourl".toList, JSON.obj [("title".toList, .str "No target".toList)]) ∈
      entriesGood :=
    List.mem_cons_of_mem _ (List.mem_cons_of_mem _ (List.mem_cons_self _ _))
  exact ⟨hg, hm, by decide,
    C7_missing_url_skipped envGood cfgGood entriesGood tplGood hg
      "nourl".toList _ hm (by decide)⟩

/-- C8: when the link registry is missing or unparsable (and the config
parses, since otherwise the run crashes earlier — see C1), the run logs a
human-readable diagnostic and ends without rendering any page or sitemap —
but only after the pre-existing output directory was removed and recreated
and the error page copied, and the partial tree (the recreated directory
with the lone copied error page) is left in place. -/
theorem C8_fatal_after_reset (env : Env) (cfg : List (List Char × JSON))
    (hc : env.configContent = .parsed (.obj cfg))
    (hreg : env.registryContent = .missing ∨ env.registryContent = .invalid)
    (hpe : env.parentExisted = true) (hee : env.errorPageExists = true) :
    (runMain env).exc = none ∧
    (runMain env).removedParent = true ∧
    (runMain env).dirs = [env.args.parent_folder] ∧
    (runMain env).writes =
      [(joinPath env.args.parent_folder (basename env.args.error_page),
        env.errorPageContent)] ∧
    (LogEvent.fileNotFoundError env.args.json_file ∈ (runMain env).logs ∨
     LogEvent.registryInvalid env.args.json_file ∈ (runMain env).logs) := by
  rcases hreg with hreg | hreg
  · simp only [runMain, hc, hreg, hpe, hee, load_config, dictGet, if_true, Bool.true_and]
    exact ⟨by trivial, by trivial, by trivial, by trivial, Or.inl (by simp)⟩
  · simp only [runMain, hc, hreg, hpe, hee, load_config, dictGet, if_true, Bool.true_and]
    exact ⟨by trivial, by trivial, by trivial, by trivial, Or.inr (by simp)⟩

/-- Witness for C8 at a concrete environment with a missing registry. -/
theorem C8_fatal_after_reset_w :
    envRegistryMissing.configContent =
      .parsed (.obj [("base_url".toList, .str "https://s.example".toList)]) ∧
    (envRegistryMissing.registryContent = .missing ∨
     envRegistryMissing.registryContent = .invalid) ∧
    envRegistryMissing.parentExisted = true ∧
    envRegistryMissing.errorPageExists = true ∧
    ((runMain envRegistryMissing).exc = none ∧
     (runMain envRegistryMissing).removedParent = true ∧
     (runMain envRegistryMissing).dirs = [envRegistryMissing.args.parent_folder] ∧
     (runMain envRegistryMissing).writes =
       [(joinPath envRegistryMissing.args.parent_folder
           (basename envRegistryMissing.args.error_page),
         envRegistryMissing.errorPageContent)] ∧
     (LogEvent.fileNotFoundError envRegistryMissing.args.json_file ∈
        (runMain envRegistryMissing).logs ∨
      LogEvent.registryInvalid envRegistryMissing.args.json_file ∈
        (runMain envRegistryMissing).logs)) :=
  ⟨rfl, Or.inl rfl, rfl, rfl,
   C8_fatal_after_reset envRegistryMissing
     [("base_url".toList, .str "https://s.example".toList)]
     rfl (Or.inl rfl) rfl rfl⟩

/-- C9: the claim says the sitemap is written under the output directory
using the name given by the sitemap command-line flag.  The code violates
it: `generate_sitemap` line 42 hard-codes `sitemap.xml`, the parsed
`args.sitemap` value is overwritten at line 143 and never used.  With the
flag set to `custom.xml`, the run still writes `<output>/sitemap.xml` and
nothing at `<output>/custom.xml`. -/
theorem C9_sitemap_flag_ignored :
    envSitemapFlag.args.sitemap = "custom.xml".toList ∧
    (runMain envSitemapFlag).writes.map Prod.fst =
      ["_site/index.html".toList, "_site/sitemap.xml".toList] ∧
    "_site/custom.xml".toList ∉ (runMain envSitemapFlag).writes.map Prod.fst :=
  ⟨rfl, rfl, by decide⟩

/-- C10: a registry that parses to an object mapping a key to a number
makes the membership test `'url' not in value` raise an uncaught
`TypeError` (numbers are not iterable): the run aborts mid-loop with no
page written, no skip diagnostic logged, and no fatal-input message. -/
theorem C10_nonobject_value_typeerror :
    (runMain envNonObjectValue).exc = some .typeError ∧
    (runMain envNonObjectValue).writes = [] ∧
    (runMain envNonObjectValue).dirs = ["_site".toList] ∧
    (runMain envNonObjectValue).logs = [.errorPageMissing defaultArgs.error_page] :=
  ⟨rfl, rfl, rfl, rfl⟩
